import Mathlib

/-!
# Verification of the kyros-dashboard collaboration core

Shallow embedding of the multi-agent task-coordination subsystem found in
`mcp/kyros_collab_server.py` and `scripts/collab_cli.py`: the lease manager,
the task registry with its status state machine, the event journal, the
assignment advisor, and the ETag-based JSON state store.

Modelling conventions:
- Timestamps are integers (seconds); the Python code stores ISO-8601 UTC
  strings and compares them via `datetime` subtraction in seconds.
- Fallible operations (which raise `RuntimeError` in Python) return
  `Except CollabError`; on an error the Python code raises before any write
  reaches disk, so the caller's state is unchanged — in the pure model an
  error result simply carries no new state.
- Generated identifiers (the random/hash-derived `lock_id`) are passed in as
  explicit parameters, since they are nondeterministic inputs of the code.
-/

namespace Collab

/-- Error taxonomy of the collaboration core (spec §7). Each `RuntimeError`
message in the source is mapped to its taxonomy class:
"Active lease exists" / "ETag mismatch" → Conflict,
"Task not found" / "Lease not found or ownership mismatch" → NotFound,
"Invalid status" → InvalidStatus, "Invalid transition" → InvalidTransition,
a `json.loads` failure → ParseError. -/
inductive CollabError where
  | Conflict
  | NotFound
  | InvalidStatus
  | InvalidTransition
  | ParseError
deriving Repr, DecidableEq

/-- Default lease time-to-live, `TTL_SECONDS = int(os.getenv("COLLAB_TTL", "900"))`
with the default value. -/
def TTL_SECONDS : Int := 900

/-- A lease record, as written by `acquire_lease` in both front-ends. -/
structure Lease where
  path : String
  owner : String
  purpose : String
  lock_id : String
  acquired_at : Int
  ttl_seconds : Int
  heartbeat_at : Int
deriving Repr, DecidableEq

/-- The prune predicate of `rpc_acquire_lease` / `acquire_lease`: a lease is
kept iff `now - acquired_at <= ttl_seconds` and `now - heartbeat_at <= ttl_seconds`. -/
def leaseFresh (now : Int) (l : Lease) : Bool :=
  decide (now - l.acquired_at ≤ l.ttl_seconds) && decide (now - l.heartbeat_at ≤ l.ttl_seconds)

/-- `acquire_lease(path, owner, purpose)` (both front-ends): prune stale
leases, fail with Conflict if a surviving lease covers `path`, otherwise
append a new lease with `acquired_at = heartbeat_at = now` and the default
TTL, returning the (caller-supplied, in the code freshly generated) lock id. -/
def acquireLease (locks : List Lease) (path owner purpose : String)
    (now : Int) (lockId : String) : Except CollabError (List Lease × String) :=
  let fresh := locks.filter (leaseFresh now)
  if fresh.any (fun l => l.path == path) then
    .error .Conflict
  else
    .ok (fresh ++ [⟨path, owner, purpose, lockId, now, TTL_SECONDS, now⟩], lockId)

/-- `renew_lease(lock_id, owner)`: set `heartbeat_at = now` on the first lease
whose `(lock_id, owner)` pair matches exactly (the Python loop breaks at the
first match); NotFound when no lease matches. No timestamp or TTL is consulted. -/
def renewLease : List Lease → String → String → Int → Except CollabError (List Lease)
  | [], _, _, _ => .error .NotFound
  | l :: ls, lockId, owner, now =>
    if l.lock_id == lockId && l.owner == owner then
      .ok ({ l with heartbeat_at := now } :: ls)
    else
      match renewLease ls lockId owner now with
      | .ok ls2 => .ok (l :: ls2)
      | .error e => .error e

/-- `release_lease(lock_id, owner)`: drop every lease whose `(lock_id, owner)`
pair matches exactly; NotFound when nothing was dropped. No timestamp or TTL
is consulted. -/
def releaseLease (locks : List Lease) (lockId owner : String) :
    Except CollabError (List Lease) :=
  let remaining := locks.filter (fun l => !(l.lock_id == lockId && l.owner == owner))
  if remaining.length == locks.length then .error .NotFound
  else .ok remaining

/-- "At most one active (unexpired) lease per path": any two distinct
leases that survive the freshness check at time `now` protect distinct paths. -/
def ActiveUnique (now : Int) (locks : List Lease) : Prop :=
  (locks.filter (leaseFresh now)).Pairwise (fun a b => a.path ≠ b.path)

/-- The recognized status values, `ALLOWED_STATUSES` (identical in both
front-ends). -/
def ALLOWED_STATUSES : List String :=
  ["queued", "claimed", "in_progress", "review", "changes_requested",
   "approved", "merging", "done", "blocked", "failed", "abandoned"]

/-- The status state machine, `ALLOWED_TRANSITIONS` (identical in both
front-ends); `ALLOWED_TRANSITIONS.get(old, [])` is modelled by the final
catch-all branch. -/
def ALLOWED_TRANSITIONS (s : String) : List String :=
  if s == "queued" then ["claimed", "in_progress", "abandoned"]
  else if s == "claimed" then ["in_progress", "blocked", "abandoned"]
  else if s == "in_progress" then ["review", "blocked", "failed"]
  else if s == "review" then ["approved", "changes_requested", "failed"]
  else if s == "changes_requested" then ["in_progress", "failed"]
  else if s == "approved" then ["merging"]
  else if s == "merging" then ["done", "failed"]
  else if s == "blocked" then ["in_progress", "abandoned"]
  else if s == "failed" then ["in_progress", "abandoned"]
  else []

/-- A task record with the fields written by `create_task`. -/
structure Task where
  id : String
  title : String
  description : String
  status : String
  assignee : Option String
  priority : Option String
  labels : List String
  dependencies : List String
  blockers : List String
  branch : Option String
  created_at : Int
  updated_at : Int
  dod : List String
  needs : Option String
deriving Repr, DecidableEq

/-- The lookup loop `for t in tasks: if t.get("id") == task_id` — the first
task with the given id. -/
def findTask (tasks : List Task) (taskId : String) : Option Task :=
  tasks.find? (fun t => t.id == taskId)

/-- Zero-padded sequential id, `f"task-{len(tasks) + 1:03d}"`. -/
def seqTaskId (n : Nat) : String :=
  "task-" ++ (if n < 10 then "00" else if n < 100 then "0" else "") ++ toString n

/-- The task record built by `create_task`. -/
def newTask (title description : String) (labels : List String)
    (priority assignee : Option String) (id : String) (now : Int) : Task :=
  { id := id, title := title, description := description, status := "queued",
    assignee := assignee, priority := priority, labels := labels,
    dependencies := [], blockers := [], branch := none,
    created_at := now, updated_at := now, dod := [], needs := none }

/-- `create_task(params)`: pick the explicit id when supplied (Python
`params.get("id") or f"task-..."` also falls back on the empty string, which
is falsy), append the new record, and return the id. There is no duplicate-id
check anywhere in either front-end: the call never fails. -/
def createTask (tasks : List Task) (title description : String)
    (labels : List String) (priority assignee : Option String)
    (idOverride : Option String) (now : Int) : List Task × String :=
  let newId := match idOverride with
    | some i => if i == "" then seqTaskId (tasks.length + 1) else i
    | none => seqTaskId (tasks.length + 1)
  (tasks ++ [newTask title description labels priority assignee newId now], newId)

/-- `transition_task(id, new_status)`: reject an unrecognized status first,
then walk the list for the first task with the given id; reject the move when
`new_status` is not in the current status's allowed set, otherwise set the
status and bump `updated_at`. Returns the new list and the old status (used
by the emitted `status_changed` event). The list walk is the helper
`transitionGo`; the wrapper performs the up-front recognized-status check. -/
def transitionGo (taskId newStatus : String) (now : Int) :
    List Task → Except CollabError (List Task × String)
  | [] => .error .NotFound
  | t :: ts =>
    if t.id == taskId then
      if !((ALLOWED_TRANSITIONS t.status).contains newStatus) then
        .error .InvalidTransition
      else
        .ok ({ t with status := newStatus, updated_at := now } :: ts, t.status)
    else
      match transitionGo taskId newStatus now ts with
      | .ok (ts2, old) => .ok (t :: ts2, old)
      | .error e => .error e

def transitionTask (tasks : List Task) (taskId newStatus : String) (now : Int) :
    Except CollabError (List Task × String) :=
  if !(ALLOWED_STATUSES.contains newStatus) then .error .InvalidStatus
  else transitionGo taskId newStatus now tasks

/-- The field updates accepted by `update_task` (absent key = `none`). -/
structure UpdateFields where
  title : Option String := none
  description : Option String := none
  upd_status : Option String := none
  assignee : Option String := none
  priority : Option String := none
  labels : Option (List String) := none
deriving Repr, DecidableEq

/-- `t.update(fields)` restricted to the fields the front-ends accept. -/
def applyFields (t : Task) (f : UpdateFields) : Task :=
  { t with
    title := f.title.getD t.title,
    description := f.description.getD t.description,
    status := f.upd_status.getD t.status,
    assignee := match f.assignee with | some a => some a | none => t.assignee,
    priority := match f.priority with | some p => some p | none => t.priority,
    labels := f.labels.getD t.labels }

/-- `update_task(id, fields)`: find the first task with the given id
(NotFound otherwise); when a `status` field is present it only has to be a
recognized value (InvalidStatus otherwise) — the state machine is NOT
consulted; apply the fields and bump `updated_at`. -/
def updateTask (tasks : List Task) (taskId : String) (f : UpdateFields)
    (now : Int) : Except CollabError (List Task) :=
  match tasks with
  | [] => .error .NotFound
  | t :: ts =>
    if t.id == taskId then
      if (match f.upd_status with
          | some s => !(ALLOWED_STATUSES.contains s)
          | none => false) then
        .error .InvalidStatus
      else
        .ok ({ applyFields t f with updated_at := now } :: ts)
    else
      match updateTask ts taskId f now with
      | .ok ts2 => .ok (t :: ts2)
      | .error e => .error e

/-- One record of the append-only journal `events.jsonl`, restricted to the
fields the claims mention. -/
structure Event where
  event : String
  task : String
  old_status : Option String := none
  new_status : Option String := none
deriving Repr, DecidableEq

/-- Task collection plus the event journal. -/
structure Store where
  tasks : List Task
  events : List Event
deriving Repr, DecidableEq

/-- `create_task` followed by `emit_event({"event": "task_created", ...})`. -/
def createTaskS (st : Store) (title description : String) (labels : List String)
    (priority assignee : Option String) (idOverride : Option String)
    (now : Int) : Store × String :=
  let (ts, i) := createTask st.tasks title description labels priority assignee idOverride now
  ({ tasks := ts, events := st.events ++ [{ event := "task_created", task := i }] }, i)

/-- `transition_task` followed, on success, by
`emit_event({"event": "status_changed", ...})`; on failure the exception is
raised before anything is written, so the store is unchanged. -/
def transitionTaskS (st : Store) (taskId newStatus : String) (now : Int) :
    Except CollabError Store :=
  match transitionTask st.tasks taskId newStatus now with
  | .error e => .error e
  | .ok (ts, old) =>
    .ok { tasks := ts,
          events := st.events ++ [{ event := "status_changed", task := taskId,
                                    old_status := some old, new_status := some newStatus }] }

/-- A transition attempt as a front-end performs it: the error is reported to
the user and the store is left as it was. -/
def tryTransition (st : Store) (taskId newStatus : String) (now : Int) : Store :=
  match transitionTaskS st taskId newStatus now with
  | .ok st2 => st2
  | .error _ => st

/-- An agent registry record: an id plus metadata (the metadata plays no
role in `suggest_assignee` beyond the id). -/
structure Agent where
  id : String
deriving Repr, DecidableEq

/-- The hard-coded pools of `suggest_assignee`. -/
def backend_pool : List String := ["codex-cli-1", "codex-cli-2"]

def frontend_pool : List String := ["cursor-ide", "cursor-ide-2"]

def docs_pool : List String := ["gemini-cli-1"]

/-- Pool selection of `suggest_assignee`: nonempty intersection of the label
set with the fixed keyword sets, falling back to backend + frontend. -/
def poolFor (labels : List String) : List String :=
  if labels.any (fun l => l == "backend" || l == "devops" || l == "ci") then backend_pool
  else if labels.any (fun l => l == "frontend" || l == "e2e") then frontend_pool
  else if labels.any (fun l => l == "docs" || l == "review") then docs_pool
  else backend_pool ++ frontend_pool

/-- The keys of the Python `load` dict
`{a["id"]: 0 for a in agents if a["id"] in pool}`, in dict insertion order:
registry order, restricted to pool members, first occurrence kept. -/
def loadMembers (agents : List Agent) (pool : List String) : List String :=
  ((agents.map Agent.id).filter (fun i => pool.contains i)).eraseDups

/-- The load of one member: the count of tasks with `status == "in_progress"`
assigned to it (the Python loop increments `load[assignee]` per such task). -/
def loadOf (tasks : List Task) (m : String) : Nat :=
  (tasks.filter (fun t => t.status == "in_progress" && t.assignee == some m)).length

/-- `sorted(load.items(), key=lambda kv: kv[1])[0][0]`: Python's sort is
stable, so this is the first member (in dict order) with minimal load;
`none` when the dict is empty. -/
def argminLoad (f : String → Nat) : List String → Option String
  | [] => none
  | m :: ms =>
    match argminLoad f ms with
    | none => some m
    | some m2 => if f m2 < f m then some m2 else some m

/-- `suggest_assignee(labels)`: select the pool, build the load table over
the registered agents that belong to the pool, and return the least-loaded
one (ties by registry order); `None` when the load table is empty. -/
def suggestAssignee (tasks : List Task) (agents : List Agent)
    (labels : List String) : Option String :=
  argminLoad (loadOf tasks) (loadMembers agents (poolFor labels))

/-- A lease with its heartbeat forgotten: two leases agree under `hbCleared`
exactly when every field except `heartbeat_at` agrees. -/
def hbCleared (l : Lease) : Lease :=
  { l with heartbeat_at := 0 }

/-- A sequence of renewal attempts as a front-end performs them: each
`renew_lease(lock_id, owner)` call at some time either succeeds (new state)
or reports its error and leaves the state as it was. -/
def applyRenews (locks : List Lease) : List (String × String × Int) → List Lease
  | [] => locks
  | (lid, ow, t) :: rest =>
    applyRenews
      (match renewLease locks lid ow t with
       | .ok l2 => l2
       | .error _ => locks) rest

/-- The §8 scenario, step by step, from an empty store:
create `task-001` (labels `["backend"]`), then attempt the six transitions.
Timestamps `0..6` are arbitrary. -/
def scenarioCreate : Store :=
  (createTaskS { tasks := [], events := [] } "Test Task" "" ["backend"]
    none none (some "task-001") 0).1

def scenarioAfterInProgress : Store := tryTransition scenarioCreate "task-001" "in_progress" 1

def scenarioAfterBadDone : Store := tryTransition scenarioAfterInProgress "task-001" "done" 2

def scenarioAfterReview : Store := tryTransition scenarioAfterBadDone "task-001" "review" 3

def scenarioAfterApproved : Store := tryTransition scenarioAfterReview "task-001" "approved" 4

def scenarioAfterMerging : Store := tryTransition scenarioAfterApproved "task-001" "merging" 5

def scenarioFinal : Store := tryTransition scenarioAfterMerging "task-001" "done" 6

/-! ## The StateStore: JSON serialization, tokens, and compare-and-swap

`read_json_with_etag` / `write_json_atomic` persist JSON records and guard
writes with a token over the exact on-disk bytes. The on-disk bytes are
modelled as a `List Char` (the code writes UTF-8 text; Unicode scalars stand
in for bytes since `ensure_ascii=False` keeps them verbatim). The JSON value
space is modelled with integer numerals — the only numerals this subsystem
ever stores; floats do not occur in its records. -/

/-- A JSON value as `json.loads` produces it, object keys in file order. -/
inductive Json where
  | null
  | bool (b : Bool)
  | num (n : Int)
  | str (s : List Char)
  | arr (xs : List Json)
  | obj (kvs : List (List Char × Json))

/-- The opening-brace character, `Char.ofNat 123`. -/
def lbrace : Char := Char.ofNat 123

/-- The closing-brace character, `Char.ofNat 125`. -/
def rbrace : Char := Char.ofNat 125

/-- Lower-case hexadecimal digit, as CPython's `json` encoder emits in
`\u00XX` escapes. -/
def hexDigitChar (n : Nat) : Char :=
  if n < 10 then Char.ofNat (48 + n) else Char.ofNat (87 + n)

/-- One character of a JSON string body, escaped as CPython's
`py_encode_basestring` does with `ensure_ascii=False`: backslash, quote and
the control characters are escaped (`\b \t \n \f \r`, else `\u00XX`); every
other character is kept verbatim. -/
def escChar (c : Char) : List Char :=
  if c == '"' then ['\\', '"']
  else if c == '\\' then ['\\', '\\']
  else if c == '\n' then ['\\', 'n']
  else if c == '\r' then ['\\', 'r']
  else if c == '\t' then ['\\', 't']
  else if c.toNat == 8 then ['\\', 'b']
  else if c.toNat == 12 then ['\\', 'f']
  else if c.toNat < 32 then
    ['\\', 'u', '0', '0', hexDigitChar (c.toNat / 16), hexDigitChar (c.toNat % 16)]
  else [c]

/-- Escaped body of a JSON string. -/
def escBody : List Char → List Char
  | [] => []
  | c :: cs => escChar c ++ escBody cs

/-- A serialized JSON string literal. -/
def printStr (s : List Char) : List Char :=
  '"' :: (escBody s ++ ['"'])

/-- Decimal digits of a natural number, as Python's `str`. -/
def natToChars (n : Nat) : List Char :=
  if n < 10 then [Char.ofNat (48 + n)]
  else natToChars (n / 10) ++ [Char.ofNat (48 + n % 10)]
decreasing_by exact Nat.div_lt_self (by omega) (by omega)

/-- Decimal representation of an integer, as Python's `str`. -/
def intToChars (i : Int) : List Char :=
  if i < 0 then '-' :: natToChars (-i).toNat else natToChars i.toNat

/-- Newline plus the two-space-per-level indent that
`json.dumps(..., indent=2)` inserts before an element at depth `d`. -/
def indentNl (d : Nat) : List Char :=
  '\n' :: List.replicate (2 * d) ' '

mutual

/-- `json.dumps(data, indent=2, ensure_ascii=False)` for a value at nesting
depth `d`: scalars print inline; a nonempty array prints as `[`, each item on
its own line indented to depth `d+1`, and `]` indented to depth `d`; objects
likewise with `"key": value` members (the `(',', ': ')` separators CPython
selects when `indent` is given). -/
def printJson : Json → Nat → List Char
  | .null, _ => ['n', 'u', 'l', 'l']
  | .bool true, _ => ['t', 'r', 'u', 'e']
  | .bool false, _ => ['f', 'a', 'l', 's', 'e']
  | .num i, _ => intToChars i
  | .str s, _ => printStr s
  | .arr [], _ => ['[', ']']
  | .arr (x :: xs), d =>
    '[' :: (indentNl (d + 1) ++ printJson x (d + 1) ++ printArrItems xs (d + 1)
      ++ indentNl d ++ [']'])
  | .obj [], _ => [lbrace, rbrace]
  | .obj (kv :: kvs), d =>
    lbrace :: (indentNl (d + 1) ++ printStr kv.1 ++ ':' :: ' ' :: printJson kv.2 (d + 1)
      ++ printObjItems kvs (d + 1) ++ indentNl d ++ [rbrace])

/-- The remaining items of a nonempty array, each preceded by `,` and a
fresh indented line. -/
def printArrItems : List Json → Nat → List Char
  | [], _ => []
  | x :: xs, d => ',' :: (indentNl d ++ printJson x d ++ printArrItems xs d)

/-- The remaining members of a nonempty object. -/
def printObjItems : List (List Char × Json) → Nat → List Char
  | [], _ => []
  | kv :: kvs, d =>
    ',' :: (indentNl d ++ printStr kv.1 ++ ':' :: ' ' :: printJson kv.2 d
      ++ printObjItems kvs d)

end

/-- The whitespace characters `json` skips between tokens. -/
def isWsChar (c : Char) : Bool :=
  c == ' ' || c == '\t' || c == '\n' || c == '\r'

/-- Skip inter-token whitespace. -/
def skipWs (s : List Char) : List Char :=
  s.dropWhile isWsChar

/-- Numeric value of one decimal digit character. -/
def digitVal (c : Char) : Nat := c.toNat - 48

/-- Value of a digit string, most significant first. -/
def digitsVal (ds : List Char) : Nat :=
  ds.foldl (fun a c => 10 * a + digitVal c) 0

/-- Parse a nonempty run of decimal digits. -/
def parseNat (s : List Char) : Option (Nat × List Char) :=
  let ds := s.takeWhile Char.isDigit
  if ds.isEmpty then none else some (digitsVal ds, s.dropWhile Char.isDigit)

/-- Value of a hexadecimal digit character (either case). -/
def hexVal (c : Char) : Nat :=
  if c.isDigit then c.toNat - 48
  else if 97 ≤ c.toNat then c.toNat - 87
  else c.toNat - 55

/-- Parse the body of a JSON string literal after its opening quote, undoing
the escapes `json.loads` recognizes, up to the closing quote. -/
def parseStrBody (s : List Char) : Option (List Char × List Char) :=
  match s with
  | [] => none
  | c :: r =>
    if c == '"' then some ([], r)
    else if c == '\\' then
      match r with
      | [] => none
      | e :: r2 =>
        if e == '"' then (parseStrBody r2).map (fun p => ('"' :: p.1, p.2))
        else if e == '\\' then (parseStrBody r2).map (fun p => ('\\' :: p.1, p.2))
        else if e == '/' then (parseStrBody r2).map (fun p => ('/' :: p.1, p.2))
        else if e == 'b' then (parseStrBody r2).map (fun p => (Char.ofNat 8 :: p.1, p.2))
        else if e == 'f' then (parseStrBody r2).map (fun p => (Char.ofNat 12 :: p.1, p.2))
        else if e == 'n' then (parseStrBody r2).map (fun p => ('\n' :: p.1, p.2))
        else if e == 'r' then (parseStrBody r2).map (fun p => ('\r' :: p.1, p.2))
        else if e == 't' then (parseStrBody r2).map (fun p => ('\t' :: p.1, p.2))
        else if e == 'u' then
          match r2 with
          | h1 :: h2 :: h3 :: h4 :: r3 =>
            (parseStrBody r3).map (fun p =>
              (Char.ofNat (4096 * hexVal h1 + 256 * hexVal h2 + 16 * hexVal h3 + hexVal h4)
                :: p.1, p.2))
          | _ => none
        else none
    else (parseStrBody r).map (fun p => (c :: p.1, p.2))
termination_by s.length
decreasing_by all_goals simp_wf <;> omega

mutual

/-- Recursive-descent JSON value parser with an explicit recursion budget
(`json.loads` recurses on the host stack). Whitespace is skipped before each
token, as CPython's scanner does. -/
def parseVal : Nat → List Char → Option (Json × List Char)
  | 0, _ => none
  | fuel + 1, s =>
    match skipWs s with
    | [] => none
    | c :: r =>
      if c == '"' then (parseStrBody r).map (fun p => (.str p.1, p.2))
      else if c == '[' then
        match skipWs r with
        | [] => none
        | c2 :: r2 =>
          if c2 == ']' then some (.arr [], r2)
          else
            match parseVal fuel (c2 :: r2) with
            | none => none
            | some (v, r3) =>
              match parseArrRest fuel r3 with
              | none => none
              | some (vs, r4) => some (.arr (v :: vs), r4)
      else if c == lbrace then
        match skipWs r with
        | [] => none
        | c2 :: r2 =>
          if c2 == rbrace then some (.obj [], r2)
          else if c2 == '"' then
            match parseStrBody r2 with
            | none => none
            | some (k, r3) =>
              match skipWs r3 with
              | ':' :: r4 =>
                match parseVal fuel r4 with
                | none => none
                | some (v, r5) =>
                  match parseObjRest fuel r5 with
                  | none => none
                  | some (kvs, r6) => some (.obj ((k, v) :: kvs), r6)
              | _ => none
          else none
      else if c == 'n' then
        match r with
        | 'u' :: 'l' :: 'l' :: r2 => some (.null, r2)
        | _ => none
      else if c == 't' then
        match r with
        | 'r' :: 'u' :: 'e' :: r2 => some (.bool true, r2)
        | _ => none
      else if c == 'f' then
        match r with
        | 'a' :: 'l' :: 's' :: 'e' :: r2 => some (.bool false, r2)
        | _ => none
      else if c == '-' then
        match parseNat r with
        | some (n, r2) => some (.num (-(n : Int)), r2)
        | none => none
      else if c.isDigit then
        match parseNat (c :: r) with
        | some (n, r2) => some (.num (n : Int), r2)
        | none => none
      else none

/-- After one array item: either `]` closes the array or `,` introduces the
next item. -/
def parseArrRest : Nat → List Char → Option (List Json × List Char)
  | 0, _ => none
  | fuel + 1, s =>
    match skipWs s with
    | [] => none
    | c :: r =>
      if c == ']' then some ([], r)
      else if c == ',' then
        match parseVal fuel r with
        | none => none
        | some (v, r2) =>
          match parseArrRest fuel r2 with
          | none => none
          | some (vs, r3) => some (v :: vs, r3)
      else none

/-- After one object member: either the closing brace or `,` followed by the
next `"key": value` member. -/
def parseObjRest : Nat → List Char → Option (List (List Char × Json) × List Char)
  | 0, _ => none
  | fuel + 1, s =>
    match skipWs s with
    | [] => none
    | c :: r =>
      if c == rbrace then some ([], r)
      else if c == ',' then
        match skipWs r with
        | [] => none
        | c2 :: r2 =>
          if c2 == '"' then
            match parseStrBody r2 with
            | none => none
            | some (k, r3) =>
              match skipWs r3 with
              | ':' :: r4 =>
                match parseVal fuel r4 with
                | none => none
                | some (v, r5) =>
                  match parseObjRest fuel r5 with
                  | none => none
                  | some (kvs, r6) => some ((k, v) :: kvs, r6)
              | _ => none
          else none
      else none

end

/-- `json.loads`: parse one value and require only whitespace to follow. The
recursion budget `length + 1` suffices for every parse that can succeed,
since each budget level consumes at least one input character. -/
def loads (s : List Char) : Option Json :=
  match parseVal (s.length + 1) s with
  | some (v, r) => if skipWs r == [] then some v else none
  | none => none

/-- `sha256_hex(data)`: the content token over the exact on-disk bytes. The
digest is modelled as an injective fingerprint of the bytes (an ideal,
collision-free hash); no theorem below relies on anything beyond its being a
function of the bytes. -/
def sha256_hex (bs : List Char) : String :=
  String.mk bs

/-- `read_json_with_etag(path)` of the MCP server: a missing file reads as
`{"version": 1}` with the token of the empty byte string; otherwise the file
is parsed (`json.loads` raising on malformed bytes) and the token is the
digest of the raw bytes. -/
def readJsonWithEtag (file : Option (List Char)) : Except CollabError (Json × String) :=
  match file with
  | none =>
    .ok (.obj [(['v', 'e', 'r', 's', 'i', 'o', 'n'], .num 1)], sha256_hex [])
  | some raw =>
    match loads raw with
    | some v => .ok (v, sha256_hex raw)
    | none => .error .ParseError

/-- The CAS guard of `write_json_atomic`:
`if expected_etag and expected_etag != cur_etag` — a supplied, nonempty
(tokens are 64 hex characters, so every real token is truthy) expected token
that differs from the current one. -/
def writeGuardConflict (expected : Option String) (cur : String) : Bool :=
  match expected with
  | none => false
  | some e => !(e == "") && !(e == cur)

/-- `write_json_atomic(path, data, expected_etag)`: re-read the current
token, fail with Conflict if an expected token was supplied and differs,
otherwise serialize `data` (with a trailing newline), replace the file
atomically, and re-read it to report the new record, new token, and the
pre-write token. -/
def writeJsonAtomic (file : Option (List Char)) (data : Json)
    (expected : Option String) :
    Except CollabError (List Char × Json × String × String) :=
  match readJsonWithEtag file with
  | .error e => .error e
  | .ok (_, curEtag) =>
    if writeGuardConflict expected curEtag then .error .Conflict
    else
      let raw := printJson data 0 ++ ['\n']
      match readJsonWithEtag (some raw) with
      | .error e => .error e
      | .ok (newData, newEtag) => .ok (raw, newData, newEtag, curEtag)

mutual

/-- Recursion budget a parse of this value consumes: one unit per
`parseVal` / `parseArrRest` / `parseObjRest` activation. -/
def fuelJson : Json → Nat
  | .null => 1
  | .bool _ => 1
  | .num _ => 1
  | .str _ => 1
  | .arr [] => 1
  | .arr (x :: xs) => 1 + fuelJson x + fuelItems xs
  | .obj [] => 1
  | .obj (kv :: kvs) => 1 + fuelJson kv.2 + fuelKVs kvs

/-- Budget for the remaining items of an array. -/
def fuelItems : List Json → Nat
  | [] => 1
  | x :: xs => 1 + fuelJson x + fuelItems xs

/-- Budget for the remaining members of an object. -/
def fuelKVs : List (List Char × Json) → Nat
  | [] => 1
  | kv :: kvs => 1 + fuelJson kv.2 + fuelKVs kvs

end

/-- A suffix that cannot extend a just-parsed numeral: empty, or starting
with a non-digit. Every suffix the printer produces after a numeral (`,`,
a newline, `]`, a brace) satisfies it. -/
def numSafe : List Char → Bool
  | [] => true
  | c :: _ => !c.isDigit

/-! ## Lease manager theorems -/

theorem leaseFresh_mono {now now2 : Int} (h : now ≤ now2) {l : Lease}
    (hf : leaseFresh now2 l = true) : leaseFresh now l = true := by
  simp only [leaseFresh, Bool.and_eq_true, decide_eq_true_eq] at hf ⊢
  omega

theorem acquire_conflict {locks : List Lease} {path : String}
    (owner purpose : String) {now : Int} (lockId : String)
    (h : ∃ l ∈ locks, leaseFresh now l = true ∧ l.path = path) :
    acquireLease locks path owner purpose now lockId = .error .Conflict := by
  obtain ⟨l, hl, hf, hp⟩ := h
  have hany : (locks.filter (leaseFresh now)).any (fun l => l.path == path) = true := by
    rw [List.any_eq_true]
    exact ⟨l, List.mem_filter.mpr ⟨hl, hf⟩, by simp [hp]⟩
  simp [acquireLease, hany]

theorem acquire_ok {locks : List Lease} {path : String}
    (owner purpose : String) {now : Int} (lockId : String)
    (h : ∀ l ∈ locks, leaseFresh now l = true → l.path ≠ path) :
    acquireLease locks path owner purpose now lockId =
      .ok (locks.filter (leaseFresh now)
            ++ [⟨path, owner, purpose, lockId, now, TTL_SECONDS, now⟩], lockId) := by
  have hany : (locks.filter (leaseFresh now)).any (fun l => l.path == path) = false := by
    rw [Bool.eq_false_iff]
    intro hc
    rw [List.any_eq_true] at hc
    obtain ⟨l, hl, hp⟩ := hc
    rw [List.mem_filter] at hl
    exact h l hl.1 hl.2 (by simpa using hp)
  simp [acquireLease, hany]

theorem acquire_ok_inv {locks : List Lease} {path owner purpose : String}
    {now : Int} {lockId : String} {locks2 : List Lease} {lid : String}
    (h : acquireLease locks path owner purpose now lockId = .ok (locks2, lid)) :
    locks2 = locks.filter (leaseFresh now)
      ++ [⟨path, owner, purpose, lockId, now, TTL_SECONDS, now⟩]
    ∧ ∀ l ∈ locks.filter (leaseFresh now), l.path ≠ path := by
  by_cases hany : (locks.filter (leaseFresh now)).any (fun l => l.path == path) = true
  · simp [acquireLease, hany] at h
  · rw [Bool.not_eq_true] at hany
    constructor
    · simp [acquireLease, hany] at h
      exact h.1.symm
    · intro l hl hp
      have hc : (locks.filter (leaseFresh now)).any (fun l => l.path == path) = true :=
        List.any_eq_true.mpr ⟨l, hl, by simp [hp]⟩
      rw [hany] at hc
      exact absurd hc (by simp)

/-- C1: after `acquire(path, owner, purpose)` completes the collection holds
at most one unexpired lease per path — (a) whenever an unexpired lease
already covers `path`, a further acquire from any owner fails with Conflict
and adds nothing; (b) a successful acquire preserves the at-most-one-active-
lease-per-path invariant, at its own time and at every later time; (c) after
one acquire succeeds, any competing acquire on the same path performed while
the winning lease is unexpired fails with Conflict — so of competing
acquires exactly the first to write succeeds. -/
theorem acquire_exclusive_lease (locks : List Lease) (path owner purpose : String)
    (now : Int) (lockId : String) :
    ((∃ l ∈ locks, leaseFresh now l = true ∧ l.path = path) →
      acquireLease locks path owner purpose now lockId = .error .Conflict)
    ∧ (∀ locks2 lid, ActiveUnique now locks →
        acquireLease locks path owner purpose now lockId = .ok (locks2, lid) →
        ∀ now2, now ≤ now2 → ActiveUnique now2 locks2)
    ∧ (∀ locks2 lid,
        acquireLease locks path owner purpose now lockId = .ok (locks2, lid) →
        ∀ owner2 purpose2 now2 lockId2, now2 - now ≤ TTL_SECONDS →
          acquireLease locks2 path owner2 purpose2 now2 lockId2 = .error .Conflict) := by
  refine ⟨fun h => acquire_conflict owner purpose lockId h, ?_, ?_⟩
  · intro locks2 lid hUniq heq now2 hle
    obtain ⟨hlocks2, hnop⟩ := acquire_ok_inv heq
    subst hlocks2
    unfold ActiveUnique at hUniq ⊢
    rw [List.filter_append]
    apply List.pairwise_append.mpr
    refine ⟨?_, ?_, ?_⟩
    · exact List.Pairwise.sublist (List.filter_sublist _) hUniq
    · apply List.Pairwise.filter
      simp
    · intro a ha b hb
      have ha2 := List.mem_filter.mp ha
      have hb2 : b = (⟨path, owner, purpose, lockId, now, TTL_SECONDS, now⟩ : Lease) := by
        have := List.mem_filter.mp hb
        simpa using this.1
      rw [hb2]
      exact hnop a ha2.1
  · intro locks2 lid heq owner2 purpose2 now2 lockId2 httl
    obtain ⟨hlocks2, _⟩ := acquire_ok_inv heq
    subst hlocks2
    apply acquire_conflict owner2 purpose2 lockId2
    refine ⟨⟨path, owner, purpose, lockId, now, TTL_SECONDS, now⟩, by simp, ?_, rfl⟩
    simp only [leaseFresh, Bool.and_eq_true, decide_eq_true_eq]
    constructor <;> · show now2 - now ≤ TTL_SECONDS; exact httl

theorem acquire_exclusive_lease_witness :
    acquireLease [⟨"cfg", "agent-a", "task-1", "L1", 0, TTL_SECONDS, 0⟩]
        "cfg" "agent-b" "task-2" 10 "L2" = .error .Conflict := by
  exact (acquire_exclusive_lease [] "cfg" "agent-a" "task-1" 0 "L1").2.2
    [⟨"cfg", "agent-a", "task-1", "L1", 0, TTL_SECONDS, 0⟩] "L1" rfl
    "agent-b" "task-2" 10 "L2" (by decide)

theorem renew_preserves_all_but_heartbeat {locks : List Lease} {lid ow : String}
    {now : Int} {locks2 : List Lease}
    (h : renewLease locks lid ow now = .ok locks2) :
    locks2.map hbCleared = locks.map hbCleared := by
  induction locks generalizing locks2 with
  | nil => simp [renewLease] at h
  | cons l ls ih =>
    by_cases hm : (l.lock_id == lid && l.owner == ow) = true
    · simp [renewLease, hm] at h
      subst h
      simp [hbCleared]
    · rw [Bool.not_eq_true] at hm
      rcases hr : renewLease ls lid ow now with e | ls2
      · simp [renewLease, hm, hr] at h
      · simp [renewLease, hm, hr] at h
        subst h
        simp [ih hr]

theorem applyRenews_preserves (rs : List (String × String × Int)) :
    ∀ locks : List Lease, (applyRenews locks rs).map hbCleared = locks.map hbCleared := by
  induction rs with
  | nil => intro locks; rfl
  | cons r rs ih =>
    intro locks
    obtain ⟨lid, ow, t⟩ := r
    rcases hr : renewLease locks lid ow t with e | ls2
    · simpa [applyRenews, hr] using ih locks
    · simp only [applyRenews, hr]
      rw [ih ls2, renew_preserves_all_but_heartbeat hr]

/-- C5: lease survival requires both `now - acquired_at ≤ ttl` and
`now - heartbeat_at ≤ ttl`, and renew rewrites only `heartbeat_at` — so (i)
a successful renew changes no field other than `heartbeat_at` of any lease,
and (ii) starting from the lease that `acquire(path, ...)` writes at time
`t0`, after ANY sequence of renewal calls an acquire of the same path at a
time past `t0 + ttl` prunes the lease and succeeds: continuous renewal
cannot move the deadline fixed at acquisition. -/
theorem lease_deadline_fixed_at_acquisition :
    (∀ (locks : List Lease) (lid ow : String) (now : Int) (locks2 : List Lease),
      renewLease locks lid ow now = .ok locks2 →
      locks2.map hbCleared = locks.map hbCleared)
    ∧ ∀ (pth ow purpose : String) (t0 : Int) (lid : String)
        (renews : List (String × String × Int)) (now : Int)
        (ow2 purpose2 lid2 : String), t0 + TTL_SECONDS < now →
        acquireLease [] pth ow purpose t0 lid
          = .ok ([⟨pth, ow, purpose, lid, t0, TTL_SECONDS, t0⟩], lid)
        ∧ acquireLease (applyRenews [⟨pth, ow, purpose, lid, t0, TTL_SECONDS, t0⟩] renews)
            pth ow2 purpose2 now lid2
          = .ok ([⟨pth, ow2, purpose2, lid2, now, TTL_SECONDS, now⟩], lid2) := by
  refine ⟨fun _ _ _ _ _ h => renew_preserves_all_but_heartbeat h, ?_⟩
  intro pth ow purpose t0 lid renews now ow2 purpose2 lid2 hlate
  refine ⟨rfl, ?_⟩
  have hmap := applyRenews_preserves renews [⟨pth, ow, purpose, lid, t0, TTL_SECONDS, t0⟩]
  rcases hst : applyRenews [⟨pth, ow, purpose, lid, t0, TTL_SECONDS, t0⟩] renews
    with _ | ⟨w, rest⟩
  · rw [hst] at hmap
    simp at hmap
  · rw [hst] at hmap
    rcases rest with _ | ⟨w2, rest2⟩
    swap
    · simp at hmap
    simp [hbCleared] at hmap
    have hacq : w.acquired_at = t0 := hmap.2.2.2.2.1
    have httl : w.ttl_seconds = TTL_SECONDS := hmap.2.2.2.2.2
    have hfr : leaseFresh now w = false := by
      simp only [leaseFresh, hacq, httl]
      have : ¬(now - t0 ≤ TTL_SECONDS) := by omega
      simp [this]
    have hfilter : List.filter (leaseFresh now) [w] = [] := by
      simp [List.filter, hfr]
    rw [acquire_ok ow2 purpose2 lid2 ?nopath, hfilter]
    · simp
    case nopath =>
      intro l hl hfresh
      rw [List.mem_singleton] at hl
      subst hl
      rw [hfr] at hfresh
      exact absurd hfresh (by simp)

theorem lease_deadline_fixed_at_acquisition_witness :
    acquireLease
        (applyRenews [⟨"cfg", "agent-a", "task-1", "L1", 0, TTL_SECONDS, 0⟩]
          [("L1", "agent-a", 400), ("L1", "agent-a", 800)])
        "cfg" "agent-b" "task-2" 901 "L2"
      = .ok ([⟨"cfg", "agent-b", "task-2", "L2", 901, TTL_SECONDS, 901⟩], "L2") :=
  ((lease_deadline_fixed_at_acquisition).2 "cfg" "agent-a" "task-1" 0 "L1"
    [("L1", "agent-a", 400), ("L1", "agent-a", 800)] 901 "agent-b" "task-2" "L2"
    (by decide)).2

theorem renew_ok_of_match {locks : List Lease} {lid ow : String} (now : Int)
    (h : ∃ l ∈ locks, l.lock_id = lid ∧ l.owner = ow) :
    ∃ r, renewLease locks lid ow now = .ok r := by
  induction locks with
  | nil => simp at h
  | cons l ls ih =>
    by_cases hm : (l.lock_id == lid && l.owner == ow) = true
    · exact ⟨{ l with heartbeat_at := now } :: ls, by simp [renewLease, hm]⟩
    · rw [Bool.not_eq_true] at hm
      have h2 : ∃ l ∈ ls, l.lock_id = lid ∧ l.owner = ow := by
        rcases h with ⟨x, hx, hxe⟩
        rcases List.mem_cons.mp hx with rfl | hxs
        · rw [hxe.1, hxe.2] at hm
          simp at hm
        · exact ⟨x, hxs, hxe⟩
      obtain ⟨r, hr⟩ := ih h2
      exact ⟨l :: r, by simp [renewLease, hm, hr]⟩

theorem renew_notFound_of_no_match {locks : List Lease} {lid ow : String} (now : Int)
    (h : ∀ l ∈ locks, ¬(l.lock_id = lid ∧ l.owner = ow)) :
    renewLease locks lid ow now = .error .NotFound := by
  induction locks with
  | nil => rfl
  | cons l ls ih =>
    have hm : (l.lock_id == lid && l.owner == ow) = false := by
      cases hb : (l.lock_id == lid && l.owner == ow) with
      | false => rfl
      | true =>
        rw [Bool.and_eq_true, beq_iff_eq, beq_iff_eq] at hb
        exact absurd hb (h l (by simp))
    simp [renewLease, hm, ih (fun l hl => h l (List.mem_cons_of_mem _ hl))]

theorem release_filter_no_match {locks : List Lease} {lid ow : String}
    (h : ∀ l ∈ locks, ¬(l.lock_id = lid ∧ l.owner = ow)) :
    locks.filter (fun l => !(l.lock_id == lid && l.owner == ow)) = locks := by
  apply List.filter_eq_self.mpr
  intro l hl
  cases hb : (l.lock_id == lid && l.owner == ow) with
  | false => rfl
  | true =>
    rw [Bool.and_eq_true, beq_iff_eq, beq_iff_eq] at hb
    exact absurd hb (h l hl)

theorem release_ok_of_match {locks : List Lease} {lid ow : String}
    (h : ∃ l ∈ locks, l.lock_id = lid ∧ l.owner = ow) :
    ∃ r, releaseLease locks lid ow = .ok r := by
  obtain ⟨l, hl, h1, h2⟩ := h
  have hlen : (locks.filter (fun l => !(l.lock_id == lid && l.owner == ow))).length
      < locks.length := by
    apply List.length_filter_lt_length_iff_exists.mpr
    exact ⟨l, hl, by simp [h1, h2]⟩
  refine ⟨locks.filter (fun l => !(l.lock_id == lid && l.owner == ow)), ?_⟩
  simp only [releaseLease]
  rw [if_neg (by simp only [beq_iff_eq]; omega)]

theorem release_notFound_of_no_match {locks : List Lease} {lid ow : String}
    (h : ∀ l ∈ locks, ¬(l.lock_id = lid ∧ l.owner = ow)) :
    releaseLease locks lid ow = .error .NotFound := by
  unfold releaseLease
  rw [release_filter_no_match h]
  simp

/-- C7: `renew(lock_id, owner)` and `release(lock_id, owner)` succeed exactly
when some lease in the collection carries that exact `(lock_id, owner)` pair
— the pair `acquire` returned; with no such pair (wrong owner or unknown
lock id) both fail with NotFound, and since the exception is raised before
any write, the collection is unchanged. -/
theorem lease_ops_require_exact_pair (locks : List Lease) (lid ow : String) (now : Int) :
    ((∃ l ∈ locks, l.lock_id = lid ∧ l.owner = ow) →
      (∃ r, renewLease locks lid ow now = .ok r)
      ∧ ∃ r, releaseLease locks lid ow = .ok r)
    ∧ ((∀ l ∈ locks, ¬(l.lock_id = lid ∧ l.owner = ow)) →
      renewLease locks lid ow now = .error .NotFound
      ∧ releaseLease locks lid ow = .error .NotFound) :=
  ⟨fun h => ⟨renew_ok_of_match now h, release_ok_of_match h⟩,
   fun h => ⟨renew_notFound_of_no_match now h, release_notFound_of_no_match h⟩⟩

theorem lease_ops_require_exact_pair_witness :
    ((∃ r, renewLease [⟨"cfg", "agent-a", "task-1", "L1", 0, 900, 0⟩] "L1" "agent-a" 5 = .ok r)
      ∧ ∃ r, releaseLease [⟨"cfg", "agent-a", "task-1", "L1", 0, 900, 0⟩] "L1" "agent-a" = .ok r)
    ∧ renewLease [⟨"cfg", "agent-a", "task-1", "L1", 0, 900, 0⟩] "L1" "agent-b" 5
        = .error .NotFound
    ∧ releaseLease [⟨"cfg", "agent-a", "task-1", "L1", 0, 900, 0⟩] "L1" "agent-b"
        = .error .NotFound :=
  ⟨(lease_ops_require_exact_pair [⟨"cfg", "agent-a", "task-1", "L1", 0, 900, 0⟩]
      "L1" "agent-a" 5).1
      ⟨⟨"cfg", "agent-a", "task-1", "L1", 0, 900, 0⟩, by simp, rfl, rfl⟩,
   (lease_ops_require_exact_pair [⟨"cfg", "agent-a", "task-1", "L1", 0, 900, 0⟩]
      "L1" "agent-b" 5).2 (by decide)⟩

/-- C10: expiry is enforced only by acquire's prune step — `renew` and
`release` consult no timestamp or TTL, so both still succeed on a lease whose
age already exceeds its TTL, as long as the lease is still in the collection
(no intervening acquire pruned it). -/
theorem expired_lease_still_renewable (locks : List Lease) (lid ow : String)
    (now : Int) (l : Lease) (hmem : l ∈ locks) (hlid : l.lock_id = lid)
    (how : l.owner = ow) (hexp : now - l.acquired_at > l.ttl_seconds) :
    (∃ r, renewLease locks lid ow now = .ok r)
    ∧ ∃ r, releaseLease locks lid ow = .ok r :=
  ⟨renew_ok_of_match now ⟨l, hmem, hlid, how⟩, release_ok_of_match ⟨l, hmem, hlid, how⟩⟩

theorem expired_lease_still_renewable_witness :
    (∃ r, renewLease [⟨"cfg", "agent-a", "task-1", "L1", 0, 900, 0⟩] "L1" "agent-a" 2000
      = .ok r)
    ∧ ∃ r, releaseLease [⟨"cfg", "agent-a", "task-1", "L1", 0, 900, 0⟩] "L1" "agent-a"
      = .ok r :=
  expired_lease_still_renewable [⟨"cfg", "agent-a", "task-1", "L1", 0, 900, 0⟩]
    "L1" "agent-a" 2000 ⟨"cfg", "agent-a", "task-1", "L1", 0, 900, 0⟩
    (by simp) rfl rfl (by decide)

/-! ## Task registry theorems -/

theorem transitionGo_notFound {tid : String} (s : String) (now : Int)
    {tasks : List Task} (h : findTask tasks tid = none) :
    transitionGo tid s now tasks = .error .NotFound := by
  induction tasks with
  | nil => rfl
  | cons t ts ih =>
    by_cases hid : (t.id == tid) = true
    · simp [findTask, List.find?, hid] at h
    · rw [Bool.not_eq_true] at hid
      have h2 : findTask ts tid = none := by
        simpa [findTask, List.find?, hid] using h
      simp [transitionGo, hid, ih h2]

theorem transitionGo_invalid {tid : String} {s : String} (now : Int)
    {tasks : List Task} {t : Task} (h : findTask tasks tid = some t)
    (hna : s ∉ ALLOWED_TRANSITIONS t.status) :
    transitionGo tid s now tasks = .error .InvalidTransition := by
  induction tasks with
  | nil => simp [findTask] at h
  | cons t0 ts ih =>
    by_cases hid : (t0.id == tid) = true
    · have ht : t0 = t := by simpa [findTask, List.find?, hid] using h
      subst ht
      simp [transitionGo, hid, hna]
    · rw [Bool.not_eq_true] at hid
      have h2 : findTask ts tid = some t := by
        simpa [findTask, List.find?, hid] using h
      simp [transitionGo, hid, ih h2]

theorem transitionGo_ok {tid : String} {s : String} (now : Int)
    {tasks : List Task} {t : Task} (h : findTask tasks tid = some t)
    (ha : s ∈ ALLOWED_TRANSITIONS t.status) :
    ∃ ts2, transitionGo tid s now tasks = .ok (ts2, t.status) ∧
      findTask ts2 tid = some { t with status := s, updated_at := now } := by
  induction tasks with
  | nil => simp [findTask] at h
  | cons t0 ts ih =>
    by_cases hid : (t0.id == tid) = true
    · have ht : t0 = t := by simpa [findTask, List.find?, hid] using h
      subst ht
      refine ⟨{ t0 with status := s, updated_at := now } :: ts, ?_, ?_⟩
      · simp [transitionGo, hid, ha]
      · simp [findTask, List.find?, hid]
    · rw [Bool.not_eq_true] at hid
      have h2 : findTask ts tid = some t := by
        simpa [findTask, List.find?, hid] using h
      obtain ⟨ts2, hok, hfind⟩ := ih h2
      refine ⟨t0 :: ts2, ?_, ?_⟩
      · simp [transitionGo, hid, hok]
      · simpa [findTask, List.find?, hid] using hfind

/-- C2: for an existing task with current status `c` and a recognized status
`s`, `transition(id, s)` succeeds and sets the status to `s` (bumping
`updated_at`) exactly when `s` is in the §4.2 allowed-next set of `c`, and
fails with InvalidTransition otherwise (the exception is raised before any
write, so the task is unchanged); an absent id fails NotFound, and an
unrecognized `s` fails InvalidStatus (checked first). The witness instance
exercises the spec's example: `queued → done` is rejected while
`queued → in_progress` succeeds. -/
theorem transition_follows_state_machine (tasks : List Task) (tid s : String)
    (now : Int) :
    (∀ t, findTask tasks tid = some t → s ∈ ALLOWED_STATUSES →
      ((s ∈ ALLOWED_TRANSITIONS t.status →
        ∃ ts2, transitionTask tasks tid s now = .ok (ts2, t.status) ∧
          findTask ts2 tid = some { t with status := s, updated_at := now }) ∧
       (s ∉ ALLOWED_TRANSITIONS t.status →
        transitionTask tasks tid s now = .error .InvalidTransition)))
    ∧ (s ∈ ALLOWED_STATUSES → findTask tasks tid = none →
        transitionTask tasks tid s now = .error .NotFound)
    ∧ (s ∉ ALLOWED_STATUSES →
        transitionTask tasks tid s now = .error .InvalidStatus) := by
  refine ⟨?_, ?_, ?_⟩
  · intro t hfind hs
    constructor
    · intro ha
      obtain ⟨ts2, hok, hf⟩ := transitionGo_ok now hfind ha
      exact ⟨ts2, by simp [transitionTask, hs, hok], hf⟩
    · intro hna
      simp [transitionTask, hs, transitionGo_invalid now hfind hna]
  · intro hs hnone
    simp [transitionTask, hs, transitionGo_notFound s now hnone]
  · intro hns
    simp [transitionTask, hns]

theorem transition_follows_state_machine_witness :
    (transitionTask [newTask "T" "" ["backend"] none none "task-001" 0]
        "task-001" "done" 1 = .error .InvalidTransition)
    ∧ ∃ ts2, transitionTask [newTask "T" "" ["backend"] none none "task-001" 0]
        "task-001" "in_progress" 1 = .ok (ts2, "queued") ∧
        findTask ts2 "task-001"
          = some { newTask "T" "" ["backend"] none none "task-001" 0 with
                   status := "in_progress", updated_at := 1 } :=
  ⟨((transition_follows_state_machine
      [newTask "T" "" ["backend"] none none "task-001" 0] "task-001" "done" 1).1
      (newTask "T" "" ["backend"] none none "task-001" 0) rfl (by decide)).2
      (by decide),
   ((transition_follows_state_machine
      [newTask "T" "" ["backend"] none none "task-001" 0] "task-001" "in_progress" 1).1
      (newTask "T" "" ["backend"] none none "task-001" 0) rfl (by decide)).1
      (by decide)⟩

theorem updateStatus_notFound {tid : String} (f : UpdateFields) (now : Int)
    {tasks : List Task} (h : findTask tasks tid = none) :
    updateTask tasks tid f now = .error .NotFound := by
  induction tasks with
  | nil => rfl
  | cons t ts ih =>
    by_cases hid : (t.id == tid) = true
    · simp [findTask, List.find?, hid] at h
    · rw [Bool.not_eq_true] at hid
      have h2 : findTask ts tid = none := by
        simpa [findTask, List.find?, hid] using h
      simp [updateTask, hid, ih h2]

theorem updateStatus_invalid {tid s : String} (now : Int)
    {tasks : List Task} {t : Task} (h : findTask tasks tid = some t)
    (hns : s ∉ ALLOWED_STATUSES) :
    updateTask tasks tid { upd_status := some s } now = .error .InvalidStatus := by
  induction tasks with
  | nil => simp [findTask] at h
  | cons t0 ts ih =>
    by_cases hid : (t0.id == tid) = true
    · simp [updateTask, hid, hns]
    · rw [Bool.not_eq_true] at hid
      have h2 : findTask ts tid = some t := by
        simpa [findTask, List.find?, hid] using h
      simp [updateTask, hid, ih h2]

theorem updateStatus_ok {tid s : String} (now : Int)
    {tasks : List Task} {t : Task} (h : findTask tasks tid = some t)
    (hs : s ∈ ALLOWED_STATUSES) :
    ∃ ts2, updateTask tasks tid { upd_status := some s } now = .ok ts2 ∧
      findTask ts2 tid = some { t with status := s, updated_at := now } := by
  induction tasks with
  | nil => simp [findTask] at h
  | cons t0 ts ih =>
    by_cases hid : (t0.id == tid) = true
    · have ht : t0 = t := by simpa [findTask, List.find?, hid] using h
      subst ht
      refine ⟨{ t0 with status := s, updated_at := now } :: ts, ?_, ?_⟩
      · simp [updateTask, hid, hs, applyFields]
      · simp [findTask, List.find?, hid]
    · rw [Bool.not_eq_true] at hid
      have h2 : findTask ts tid = some t := by
        simpa [findTask, List.find?, hid] using h
      obtain ⟨ts2, hok, hfind⟩ := ih h2
      refine ⟨t0 :: ts2, ?_, ?_⟩
      · simp [updateTask, hid, hok]
      · simpa [findTask, List.find?, hid] using hfind

/-- C8: `update(id, {status: s})` sets the status directly with no
state-machine validation — for any existing task and any recognized `s`,
even one outside allowed-next of the current status, it succeeds and writes
`s` (second conjunct contrasts it with `transition`, which rejects the same
`s` with InvalidTransition); only an unrecognized value fails (InvalidStatus)
or an absent id (NotFound). -/
theorem update_sets_status_directly (tasks : List Task) (tid s : String)
    (now : Int) :
    (∀ t, findTask tasks tid = some t → s ∈ ALLOWED_STATUSES →
      ∃ ts2, updateTask tasks tid { upd_status := some s } now = .ok ts2 ∧
        findTask ts2 tid = some { t with status := s, updated_at := now })
    ∧ (∀ t, findTask tasks tid = some t → s ∈ ALLOWED_STATUSES →
        s ∉ ALLOWED_TRANSITIONS t.status →
        (∃ ts2, updateTask tasks tid { upd_status := some s } now = .ok ts2)
        ∧ transitionTask tasks tid s now = .error .InvalidTransition)
    ∧ (∀ t, findTask tasks tid = some t → s ∉ ALLOWED_STATUSES →
        updateTask tasks tid { upd_status := some s } now = .error .InvalidStatus)
    ∧ (findTask tasks tid = none →
        updateTask tasks tid { upd_status := some s } now = .error .NotFound) := by
  refine ⟨fun t h hs => updateStatus_ok now h hs, ?_, ?_, ?_⟩
  · intro t h hs hna
    refine ⟨?_, ?_⟩
    · obtain ⟨ts2, hok, _⟩ := updateStatus_ok now h hs
      exact ⟨ts2, hok⟩
    · simp [transitionTask, hs, transitionGo_invalid now h hna]
  · exact fun t h hns => updateStatus_invalid now h hns
  · exact fun h => updateStatus_notFound _ now h

theorem update_sets_status_directly_witness :
    (∃ ts2, updateTask [newTask "T" "" [] none none "task-001" 0]
        "task-001" { upd_status := some "done" } 1 = .ok ts2 ∧
        findTask ts2 "task-001"
          = some { newTask "T" "" [] none none "task-001" 0 with
                   status := "done", updated_at := 1 })
    ∧ transitionTask [newTask "T" "" [] none none "task-001" 0]
        "task-001" "done" 1 = .error .InvalidTransition :=
  ⟨(update_sets_status_directly [newTask "T" "" [] none none "task-001" 0]
      "task-001" "done" 1).1 (newTask "T" "" [] none none "task-001" 0) rfl (by decide),
   ((update_sets_status_directly [newTask "T" "" [] none none "task-001" 0]
      "task-001" "done" 1).2.1 (newTask "T" "" [] none none "task-001" 0) rfl
      (by decide) (by decide)).2⟩

/-- C4 counterexample: with `task-001` already present, `create` with the
explicit id `task-001` does NOT fail — it returns the id and the collection
now holds TWO tasks with that id. -/
theorem create_duplicate_id_not_rejected :
    ((createTask [newTask "A" "" [] none none "task-001" 0] "B" "" [] none none
        (some "task-001") 5).2 = "task-001")
    ∧ ((createTask [newTask "A" "" [] none none "task-001" 0] "B" "" [] none none
        (some "task-001") 5).1.countP (fun t => t.id == "task-001") = 2) := by
  constructor <;> rfl

/-- C4 (amended): `create` with an explicit (nonempty) id never checks for an
existing task — it always succeeds, appending a fresh record with that id
after the existing ones (the prior collection is preserved unchanged, so a
pre-existing task with the same id is not overwritten but duplicated). -/
theorem create_appends_without_duplicate_check (tasks : List Task)
    (title desc : String) (labels : List String) (prio asg : Option String)
    (i : String) (now : Int) (hi : i ≠ "") :
    createTask tasks title desc labels prio asg (some i) now
      = (tasks ++ [newTask title desc labels prio asg i now], i) := by
  have : (i == "") = false := by
    rw [Bool.eq_false_iff]
    exact fun hc => hi (by simpa using hc)
  simp [createTask, this]

theorem create_appends_without_duplicate_check_witness :
    createTask [newTask "A" "" [] none none "task-001" 0] "B" "" [] none none
        (some "task-001") 5
      = ([newTask "A" "" [] none none "task-001" 0,
          newTask "B" "" [] none none "task-001" 5], "task-001") :=
  create_appends_without_duplicate_check
    [newTask "A" "" [] none none "task-001" 0] "B" "" [] none none
    "task-001" 5 (by decide)

/-- C3 counterexample: running the §8 scenario (create `task-001`, transition
to `in_progress`, rejected transition to `done`, then `review`, `approved`,
`merging`, `done`) leaves FIVE `status_changed` events in the journal, not
four: the claim under-counts the successful transitions
(`in_progress`, `review`, `approved`, `merging`, `done`). -/
theorem scenario_status_changed_count_is_five_not_four :
    (scenarioFinal.events.filter (fun e => e.event == "status_changed")).length = 5
    ∧ (scenarioFinal.events.filter (fun e => e.event == "status_changed")).length ≠ 4 := by
  constructor
  · rfl
  · decide

/-- C3 (amended): in the scenario, the direct `queued → done` attempt is
rejected with InvalidTransition and changes nothing, and the final journal
holds, in order, exactly one `task_created` event followed by exactly five
`status_changed` events, all for `task-001`. -/
theorem scenario_journal_exact :
    transitionTaskS scenarioAfterInProgress "task-001" "done" 2
      = .error .InvalidTransition
    ∧ scenarioFinal.events.map (fun e => e.event)
      = ["task_created", "status_changed", "status_changed", "status_changed",
         "status_changed", "status_changed"]
    ∧ scenarioFinal.events.all (fun e => e.task == "task-001") = true := by
  exact ⟨rfl, rfl, rfl⟩

/-! ## Assignment advisor theorems -/

theorem argminLoad_eq_none_iff (f : String → Nat) (ms : List String) :
    argminLoad f ms = none ↔ ms = [] := by
  cases ms with
  | nil => simp [argminLoad]
  | cons m ms =>
    simp only [argminLoad]
    cases argminLoad f ms with
    | none => simp
    | some m2 =>
      by_cases h : f m2 < f m <;> simp [h]

theorem argminLoad_spec {f : String → Nat} {ms : List String} {m : String}
    (h : argminLoad f ms = some m) :
    ∃ pre post, ms = pre ++ m :: post
      ∧ (∀ x ∈ pre, f m < f x) ∧ (∀ x ∈ post, f m ≤ f x) := by
  induction ms generalizing m with
  | nil => simp [argminLoad] at h
  | cons a ms ih =>
    rcases hrec : argminLoad f ms with _ | m2
    · have hnil : ms = [] := (argminLoad_eq_none_iff f ms).mp hrec
      subst hnil
      simp [argminLoad] at h
      subst h
      exact ⟨[], [], rfl, by simp, by simp⟩
    · simp only [argminLoad, hrec] at h
      obtain ⟨pre, post, hsplit, hpre, hpost⟩ := ih hrec
      by_cases hlt : f m2 < f a
      · rw [if_pos hlt] at h
        cases h
        exact ⟨a :: pre, post, by simp [hsplit],
          fun x hx => by
            rcases List.mem_cons.mp hx with rfl | hx2
            · exact hlt
            · exact hpre x hx2,
          hpost⟩
      · rw [if_neg hlt] at h
        cases h
        push_neg at hlt
        refine ⟨[], ms, rfl, by simp, ?_⟩
        intro x hx
        rw [hsplit] at hx
        rcases List.mem_append.mp hx with hx2 | hx2
        · exact le_trans hlt (le_of_lt (hpre x hx2))
        · rcases List.mem_cons.mp hx2 with rfl | hx3
          · exact hlt
          · exact le_trans hlt (hpost x hx3)

/-- C9 counterexample: with labels `["backend"]` the selected pool is the
nonempty `backend_pool`, yet `suggest` returns none as soon as no pool member
is present in the agent registry (here: empty registry) — the claim
"returns none only if the selected pool is empty" is false. -/
theorem suggest_none_with_nonempty_pool :
    suggestAssignee [] [] ["backend"] = none ∧ poolFor ["backend"] ≠ [] := by
  constructor
  · rfl
  · decide

/-- C9 (amended): `suggest(labels)` selects the pool by the fixed keyword
membership, but its candidates are the pool members that appear in the agent
registry (in registry order, first occurrence kept); it returns the candidate
with the least count of in-progress tasks assigned to it, breaking ties by
the REGISTRY's declaration order, and returns none exactly when no registry
agent belongs to the selected pool. -/
theorem suggest_least_loaded_registered (tasks : List Task) (agents : List Agent)
    (labels : List String) :
    (suggestAssignee tasks agents labels = none ↔
      loadMembers agents (poolFor labels) = [])
    ∧ ∀ m, suggestAssignee tasks agents labels = some m →
        ∃ pre post, loadMembers agents (poolFor labels) = pre ++ m :: post
          ∧ (∀ x ∈ pre, loadOf tasks m < loadOf tasks x)
          ∧ (∀ x ∈ post, loadOf tasks m ≤ loadOf tasks x) :=
  ⟨argminLoad_eq_none_iff (loadOf tasks) (loadMembers agents (poolFor labels)),
   fun _ h => argminLoad_spec h⟩

theorem suggest_least_loaded_registered_witness :
    ∃ pre post,
      loadMembers [⟨"codex-cli-2"⟩, ⟨"codex-cli-1"⟩] (poolFor ["backend"])
        = pre ++ "codex-cli-2" :: post
      ∧ (∀ x ∈ pre, loadOf [] "codex-cli-2" < loadOf [] x)
      ∧ (∀ x ∈ post, loadOf [] "codex-cli-2" ≤ loadOf [] x) :=
  (suggest_least_loaded_registered [] [⟨"codex-cli-2"⟩, ⟨"codex-cli-1"⟩]
    ["backend"]).2 "codex-cli-2" rfl

/-! ## StateStore theorems: the parser inverts the serializer -/

theorem skipWs_cons_ws {c : Char} (h : isWsChar c = true) (s : List Char) :
    skipWs (c :: s) = skipWs s := by
  simp [skipWs, List.dropWhile_cons, h]

theorem skipWs_cons_not {c : Char} (h : isWsChar c = false) (s : List Char) :
    skipWs (c :: s) = c :: s := by
  simp [skipWs, List.dropWhile_cons, h]

theorem skipWs_replicate_space (n : Nat) (s : List Char) :
    skipWs (List.replicate n ' ' ++ s) = skipWs s := by
  induction n with
  | zero => rfl
  | succ n ih => simpa [List.replicate_succ, skipWs_cons_ws (by decide : isWsChar ' ' = true)]
      using ih

theorem skipWs_indentNl (d : Nat) (s : List Char) :
    skipWs (indentNl d ++ s) = skipWs s := by
  simp only [indentNl, List.cons_append]
  rw [skipWs_cons_ws (by decide), skipWs_replicate_space]

theorem parseVal_indent (fuel d : Nat) (s : List Char) :
    parseVal fuel (indentNl d ++ s) = parseVal fuel s := by
  cases fuel with
  | zero => rfl
  | succ fuel => simp only [parseVal, skipWs_indentNl]

theorem parseVal_cons_ws (fuel : Nat) {c : Char} (h : isWsChar c = true)
    (s : List Char) : parseVal fuel (c :: s) = parseVal fuel s := by
  cases fuel with
  | zero => rfl
  | succ fuel => simp only [parseVal, skipWs_cons_ws h]

theorem isDigit_ofNat48 {k : Nat} (hk : k < 10) :
    (Char.ofNat (48 + k)).isDigit = true := by
  interval_cases k <;> decide

theorem digitVal_ofNat48 {k : Nat} (hk : k < 10) :
    digitVal (Char.ofNat (48 + k)) = k := by
  interval_cases k <;> decide

theorem natToChars_shape (n : Nat) :
    ∃ k tl, k < 10 ∧ natToChars n = Char.ofNat (48 + k) :: tl
      ∧ ∀ c ∈ natToChars n, c.isDigit = true := by
  induction n using Nat.strong_induction_on with
  | _ n ih =>
    rw [natToChars]
    by_cases h : n < 10
    · exact ⟨n, [], h, by simp [h], by
        simp only [if_pos h, List.mem_singleton]
        rintro c rfl
        exact isDigit_ofNat48 h⟩
    · obtain ⟨k, tl, hk, hshape, hall⟩ := ih (n / 10) (Nat.div_lt_self (by omega) (by omega))
      refine ⟨k, tl ++ [Char.ofNat (48 + n % 10)], hk, ?_, ?_⟩
      · simp [if_neg h, hshape]
      · simp only [if_neg h]
        intro c hc
        rcases List.mem_append.mp hc with hc2 | hc2
        · exact hall c hc2
        · rw [List.mem_singleton] at hc2
          subst hc2
          exact isDigit_ofNat48 (Nat.mod_lt _ (by omega))

theorem digitsVal_append_one (ds : List Char) (c : Char) :
    digitsVal (ds ++ [c]) = 10 * digitsVal ds + digitVal c := by
  simp [digitsVal, List.foldl_append]

theorem digitsVal_natToChars (n : Nat) : digitsVal (natToChars n) = n := by
  induction n using Nat.strong_induction_on with
  | _ n ih =>
    rw [natToChars]
    by_cases h : n < 10
    · simp [if_pos h, digitsVal, digitVal_ofNat48 h]
    · rw [if_neg h, digitsVal_append_one,
        ih (n / 10) (Nat.div_lt_self (by omega) (by omega)),
        digitVal_ofNat48 (Nat.mod_lt _ (by omega))]
      omega

theorem takeWhile_digits_append {ds rest : List Char}
    (hds : ∀ c ∈ ds, c.isDigit = true) (hrest : numSafe rest = true) :
    (ds ++ rest).takeWhile Char.isDigit = ds
      ∧ (ds ++ rest).dropWhile Char.isDigit = rest := by
  induction ds with
  | nil =>
    cases rest with
    | nil => exact ⟨rfl, rfl⟩
    | cons c r =>
      have hc : c.isDigit = false := by simpa [numSafe] using hrest
      simp [List.takeWhile_cons, List.dropWhile_cons, hc]
  | cons c ds ih =>
    have hc : c.isDigit = true := hds c (by simp)
    have hrec := ih (fun x hx => hds x (by simp [hx]))
    simp [List.takeWhile_cons, List.dropWhile_cons, hc, hrec.1, hrec.2]

theorem parseNat_print (n : Nat) (rest : List Char) (h : numSafe rest = true) :
    parseNat (natToChars n ++ rest) = some (n, rest) := by
  obtain ⟨k, tl, hk, hshape, hall⟩ := natToChars_shape n
  obtain ⟨htake, hdrop⟩ := takeWhile_digits_append hall h
  have hne : natToChars n ≠ [] := by rw [hshape]; simp
  simp [parseNat, htake, hdrop, hne, digitsVal_natToChars]

theorem hexVal_hexDigitChar {k : Nat} (hk : k < 16) : hexVal (hexDigitChar k) = k := by
  interval_cases k <;> decide

theorem parseStrBody_quote (r : List Char) : parseStrBody ('"' :: r) = some ([], r) := by
  unfold parseStrBody
  simp

theorem parseStrBody_bs_quote (r : List Char) :
    parseStrBody ('\\' :: '"' :: r)
      = (parseStrBody r).map (fun p => ('"' :: p.1, p.2)) := by
  rw [parseStrBody.eq_def]
  simp

theorem parseStrBody_bs_bs (r : List Char) :
    parseStrBody ('\\' :: '\\' :: r)
      = (parseStrBody r).map (fun p => ('\\' :: p.1, p.2)) := by
  rw [parseStrBody.eq_def]
  simp

theorem parseStrBody_bs_n (r : List Char) :
    parseStrBody ('\\' :: 'n' :: r)
      = (parseStrBody r).map (fun p => ('\n' :: p.1, p.2)) := by
  rw [parseStrBody.eq_def]
  simp

theorem parseStrBody_bs_r (r : List Char) :
    parseStrBody ('\\' :: 'r' :: r)
      = (parseStrBody r).map (fun p => ('\x0d' :: p.1, p.2)) := by
  rw [parseStrBody.eq_def]
  simp

theorem parseStrBody_bs_t (r : List Char) :
    parseStrBody ('\\' :: 't' :: r)
      = (parseStrBody r).map (fun p => ('\t' :: p.1, p.2)) := by
  rw [parseStrBody.eq_def]
  simp

theorem parseStrBody_bs_b (r : List Char) :
    parseStrBody ('\\' :: 'b' :: r)
      = (parseStrBody r).map (fun p => (Char.ofNat 8 :: p.1, p.2)) := by
  rw [parseStrBody.eq_def]
  simp

theorem parseStrBody_bs_f (r : List Char) :
    parseStrBody ('\\' :: 'f' :: r)
      = (parseStrBody r).map (fun p => (Char.ofNat 12 :: p.1, p.2)) := by
  rw [parseStrBody.eq_def]
  simp

theorem parseStrBody_bs_u (h1 h2 h3 h4 : Char) (r : List Char) :
    parseStrBody ('\\' :: 'u' :: h1 :: h2 :: h3 :: h4 :: r)
      = (parseStrBody r).map (fun p =>
          (Char.ofNat (4096 * hexVal h1 + 256 * hexVal h2 + 16 * hexVal h3 + hexVal h4)
            :: p.1, p.2)) := by
  rw [parseStrBody.eq_def]
  simp

theorem parseStrBody_default {c : Char} (h1 : ¬c = '"') (h2 : ¬c = '\\')
    (r : List Char) :
    parseStrBody (c :: r) = (parseStrBody r).map (fun p => (c :: p.1, p.2)) := by
  rw [parseStrBody.eq_def]
  simp [h1, h2]

theorem parseStrBody_esc (s rest : List Char) :
    parseStrBody (escBody s ++ '"' :: rest) = some (s, rest) := by
  induction s with
  | nil => simp [escBody, parseStrBody_quote]
  | cons c cs ih =>
    simp only [escBody, List.append_assoc]
    by_cases h1 : c = '"'
    · subst h1
      have he : escChar '"' = ['\\', '"'] := by decide
      rw [he]
      simp only [List.cons_append, List.nil_append]
      rw [parseStrBody_bs_quote, ih]
      rfl
    · by_cases h2 : c = '\\'
      · subst h2
        have he : escChar '\\' = ['\\', '\\'] := by decide
        rw [he]
        simp only [List.cons_append, List.nil_append]
        rw [parseStrBody_bs_bs, ih]
        rfl
      · by_cases h3 : c = '\n'
        · subst h3
          have he : escChar '\n' = ['\\', 'n'] := by decide
          rw [he]
          simp only [List.cons_append, List.nil_append]
          rw [parseStrBody_bs_n, ih]
          rfl
        · by_cases h4 : c = '\x0d'
          · subst h4
            have he : escChar '\x0d' = ['\\', 'r'] := by decide
            rw [he]
            simp only [List.cons_append, List.nil_append]
            rw [parseStrBody_bs_r, ih]
            rfl
          · by_cases h5 : c = '\t'
            · subst h5
              have he : escChar '\t' = ['\\', 't'] := by decide
              rw [he]
              simp only [List.cons_append, List.nil_append]
              rw [parseStrBody_bs_t, ih]
              rfl
            · by_cases h6 : c.toNat = 8
              · have hc : c = Char.ofNat 8 := by rw [← h6, Char.ofNat_toNat]
                subst hc
                have he : escChar (Char.ofNat 8) = ['\\', 'b'] := by decide
                rw [he]
                simp only [List.cons_append, List.nil_append]
                rw [parseStrBody_bs_b, ih]
                rfl
              · by_cases h7 : c.toNat = 12
                · have hc : c = Char.ofNat 12 := by rw [← h7, Char.ofNat_toNat]
                  subst hc
                  have he : escChar (Char.ofNat 12) = ['\\', 'f'] := by decide
                  rw [he]
                  simp only [List.cons_append, List.nil_append]
                  rw [parseStrBody_bs_f, ih]
                  rfl
                · by_cases h8 : c.toNat < 32
                  · have he : escChar c
                        = ['\\', 'u', '0', '0', hexDigitChar (c.toNat / 16),
                           hexDigitChar (c.toNat % 16)] := by
                      rw [escChar, if_neg (by simp [h1]), if_neg (by simp [h2]),
                        if_neg (by simp [h3]), if_neg (by simp [h4]),
                        if_neg (by simp [h5]), if_neg (by simp [h6]),
                        if_neg (by simp [h7]), if_pos h8]
                    rw [he]
                    simp only [List.cons_append, List.nil_append]
                    rw [parseStrBody_bs_u, ih]
                    have hd1 : hexVal (hexDigitChar (c.toNat / 16)) = c.toNat / 16 :=
                      hexVal_hexDigitChar (by omega)
                    have hd2 : hexVal (hexDigitChar (c.toNat % 16)) = c.toNat % 16 :=
                      hexVal_hexDigitChar (by omega)
                    have h0 : hexVal '0' = 0 := by decide
                    have hsum : 4096 * hexVal '0' + 256 * hexVal '0'
                        + 16 * hexVal (hexDigitChar (c.toNat / 16))
                        + hexVal (hexDigitChar (c.toNat % 16)) = c.toNat := by
                      rw [hd1, hd2, h0]
                      omega
                    simp only [Option.map_some']
                    rw [hsum, Char.ofNat_toNat]
                  · have he : escChar c = [c] := by
                      rw [escChar, if_neg (by simp [h1]), if_neg (by simp [h2]),
                        if_neg (by simp [h3]), if_neg (by simp [h4]),
                        if_neg (by simp [h5]), if_neg (by simp [h6]),
                        if_neg (by simp [h7]), if_neg h8]
                    rw [he]
                    simp only [List.cons_append, List.nil_append]
                    rw [parseStrBody_default h1 h2, ih]
                    rfl

theorem printJson_head (v : Json) (d : Nat) :
    ∃ c cs, printJson v d = c :: cs ∧ isWsChar c = false ∧ (c == ']') = false := by
  cases v with
  | null => exact ⟨'n', _, rfl, by decide, by decide⟩
  | bool b => cases b with
    | true => exact ⟨'t', _, rfl, by decide, by decide⟩
    | false => exact ⟨'f', _, rfl, by decide, by decide⟩
  | num i =>
    by_cases hneg : i < 0
    · exact ⟨'-', natToChars (-i).toNat,
        by simp [printJson, intToChars, hneg], by decide, by decide⟩
    · obtain ⟨k, tl, hk, hshape, _⟩ := natToChars_shape i.toNat
      refine ⟨Char.ofNat (48 + k), tl, ?_, ?_, ?_⟩
      · simp [printJson, intToChars, hneg, hshape]
      · interval_cases k <;> decide
      · interval_cases k <;> decide
  | str s => exact ⟨'"', _, rfl, by decide, by decide⟩
  | arr xs => cases xs with
    | nil => exact ⟨'[', _, rfl, by decide, by decide⟩
    | cons x xs => exact ⟨'[', _, rfl, by decide, by decide⟩
  | obj kvs => cases kvs with
    | nil => exact ⟨lbrace, _, rfl, by decide, by decide⟩
    | cons kv kvs => exact ⟨lbrace, _, rfl, by decide, by decide⟩

theorem numSafe_arrTail (xs : List Json) (d d2 : Nat) (s : List Char) :
    numSafe (printArrItems xs d ++ (indentNl d2 ++ s)) = true := by
  cases xs <;> simp [printArrItems, indentNl, numSafe]

theorem numSafe_objTail (kvs : List (List Char × Json)) (d d2 : Nat) (s : List Char) :
    numSafe (printObjItems kvs d ++ (indentNl d2 ++ s)) = true := by
  cases kvs <;> simp [printObjItems, indentNl, numSafe]

theorem fuelJson_pos (v : Json) : 1 ≤ fuelJson v := by
  cases v with
  | arr xs => cases xs <;> simp [fuelJson] <;> omega
  | obj kvs => cases kvs <;> simp [fuelJson] <;> omega
  | _ => simp [fuelJson]

theorem fuelItems_pos (xs : List Json) : 1 ≤ fuelItems xs := by
  cases xs <;> simp [fuelItems] <;> omega

theorem fuelKVs_pos (kvs : List (List Char × Json)) : 1 ≤ fuelKVs kvs := by
  cases kvs <;> simp [fuelKVs] <;> omega

theorem digitChar_guards {k : Nat} (hk : k < 10) :
    isWsChar (Char.ofNat (48 + k)) = false
    ∧ (Char.ofNat (48 + k) == '"') = false
    ∧ (Char.ofNat (48 + k) == '[') = false
    ∧ (Char.ofNat (48 + k) == lbrace) = false
    ∧ (Char.ofNat (48 + k) == 'n') = false
    ∧ (Char.ofNat (48 + k) == 't') = false
    ∧ (Char.ofNat (48 + k) == 'f') = false
    ∧ (Char.ofNat (48 + k) == '-') = false
    ∧ (Char.ofNat (48 + k)).isDigit = true := by
  interval_cases k <;> decide

theorem parseVal_print_null (fuel : Nat) (d : Nat) (rest : List Char) :
    parseVal (fuel + 1) (printJson .null d ++ rest) = some (.null, rest) := by
  simp [printJson, parseVal, skipWs, List.dropWhile_cons, isWsChar,
    show ¬('n' = lbrace) from by decide]

theorem parseVal_print_bool (fuel : Nat) (b : Bool) (d : Nat) (rest : List Char) :
    parseVal (fuel + 1) (printJson (.bool b) d ++ rest) = some (.bool b, rest) := by
  cases b <;>
    simp [printJson, parseVal, skipWs, List.dropWhile_cons, isWsChar,
      show ¬('t' = lbrace) from by decide, show ¬('f' = lbrace) from by decide]

theorem parseVal_print_str (fuel : Nat) (s : List Char) (d : Nat) (rest : List Char) :
    parseVal (fuel + 1) (printJson (.str s) d ++ rest) = some (.str s, rest) := by
  simp only [printJson, printStr, List.cons_append, List.append_assoc,
    List.singleton_append]
  simp only [parseVal, skipWs_cons_not (by decide : isWsChar '"' = false)]
  simp [parseStrBody_esc]

theorem parseVal_print_num (fuel : Nat) (i : Int) (d : Nat) (rest : List Char)
    (hsafe : numSafe rest = true) :
    parseVal (fuel + 1) (printJson (.num i) d ++ rest) = some (.num i, rest) := by
  by_cases hneg : i < 0
  · have hpr : printJson (.num i) d = '-' :: natToChars (-i).toNat := by
      simp [printJson, intToChars, hneg]
    rw [hpr]
    simp only [List.cons_append]
    simp only [parseVal, skipWs_cons_not (by decide : isWsChar '-' = false)]
    simp only [show (('-' : Char) == '"') = false from rfl,
      show (('-' : Char) == '[') = false from rfl,
      show (('-' : Char) == lbrace) = false from rfl,
      show (('-' : Char) == 'n') = false from rfl,
      show (('-' : Char) == 't') = false from rfl,
      show (('-' : Char) == 'f') = false from rfl,
      show (('-' : Char) == '-') = true from rfl, Bool.false_eq_true, if_false, if_true]
    rw [parseNat_print _ _ hsafe]
    have htn : ((-i).toNat : Int) = -i := Int.toNat_of_nonneg (by omega)
    simp [htn]
  · have hpr : printJson (.num i) d = natToChars i.toNat := by
      simp [printJson, intToChars, hneg]
    obtain ⟨k, tl, hk, hshape, _⟩ := natToChars_shape i.toNat
    obtain ⟨g0, g1, g2, g3, g4, g5, g6, g7, g8⟩ := digitChar_guards hk
    rw [hpr, hshape]
    simp only [List.cons_append]
    simp only [parseVal, skipWs_cons_not g0]
    simp only [g1, g2, g3, g4, g5, g6, g7, g8, Bool.false_eq_true, if_false, if_true]
    rw [← List.cons_append, ← hshape, parseNat_print _ _ hsafe]
    have htn : (i.toNat : Int) = i := Int.toNat_of_nonneg (by omega)
    simp [htn]

theorem parseVal_print_arrNil (fuel : Nat) (d : Nat) (rest : List Char) :
    parseVal (fuel + 1) (printJson (.arr []) d ++ rest) = some (.arr [], rest) := by
  simp [printJson, parseVal, skipWs, List.dropWhile_cons, isWsChar,
    show ¬('[' = lbrace) from by decide]

theorem parseVal_print_objNil (fuel : Nat) (d : Nat) (rest : List Char) :
    parseVal (fuel + 1) (printJson (.obj []) d ++ rest) = some (.obj [], rest) := by
  simp only [printJson, List.cons_append]
  simp only [parseVal, skipWs_cons_not (by decide : isWsChar lbrace = false)]
  simp only [skipWs_cons_not (by decide : isWsChar rbrace = false)]
  simp [show ((lbrace == '"') = false) from by decide,
    show ((lbrace == '[') = false) from by decide,
    show ((lbrace == lbrace) = true) from by decide,
    show ((rbrace == rbrace) = true) from by decide]

theorem parseVal_print_arrCons (fuel : Nat) (x : Json) (xs : List Json) (d : Nat)
    (rest : List Char)
    (ih1 : ∀ r2, numSafe r2 = true →
      parseVal fuel (printJson x (d + 1) ++ r2) = some (x, r2))
    (ih2 : ∀ r2, parseArrRest fuel
      (printArrItems xs (d + 1) ++ (indentNl d ++ (']' :: r2))) = some (xs, r2)) :
    parseVal (fuel + 1) (printJson (.arr (x :: xs)) d ++ rest)
      = some (.arr (x :: xs), rest) := by
  obtain ⟨c, cs, hhead, hws, hbr⟩ := printJson_head x (d + 1)
  have hP : printJson (.arr (x :: xs)) d ++ rest
      = '[' :: (indentNl (d + 1) ++ (printJson x (d + 1)
          ++ (printArrItems xs (d + 1) ++ (indentNl d ++ (']' :: rest))))) := by
    simp [printJson, List.append_assoc]
  rw [hP]
  simp only [parseVal, skipWs_cons_not (by decide : isWsChar '[' = false)]
  simp only [show (('[' : Char) == '"') = false from rfl,
    show (('[' : Char) == '[') = true from rfl, Bool.false_eq_true, if_false, if_true]
  rw [skipWs_indentNl, hhead, List.cons_append, skipWs_cons_not hws]
  simp only [hbr, Bool.false_eq_true, if_false]
  rw [← List.cons_append, ← hhead,
    ih1 _ (numSafe_arrTail xs (d + 1) d (']' :: rest))]
  simp only []
  rw [ih2 rest]

theorem parseVal_print_objCons (fuel : Nat) (k : List Char) (v : Json)
    (kvs : List (List Char × Json)) (d : Nat) (rest : List Char)
    (ih1 : ∀ r2, numSafe r2 = true →
      parseVal fuel (printJson v (d + 1) ++ r2) = some (v, r2))
    (ih3 : ∀ r2, parseObjRest fuel
      (printObjItems kvs (d + 1) ++ (indentNl d ++ (rbrace :: r2))) = some (kvs, r2)) :
    parseVal (fuel + 1) (printJson (.obj ((k, v) :: kvs)) d ++ rest)
      = some (.obj ((k, v) :: kvs), rest) := by
  have hP : printJson (.obj ((k, v) :: kvs)) d ++ rest
      = lbrace :: (indentNl (d + 1) ++ ('"' :: (escBody k ++ ('"' :: (':' :: (' '
          :: (printJson v (d + 1) ++ (printObjItems kvs (d + 1)
            ++ (indentNl d ++ (rbrace :: rest)))))))))) := by
    simp [printJson, printStr, List.append_assoc]
  rw [hP]
  simp only [parseVal, skipWs_cons_not (by decide : isWsChar lbrace = false)]
  simp only [show ((lbrace == '"') = false) from by decide,
    show ((lbrace == '[') = false) from by decide,
    show ((lbrace == lbrace) = true) from by decide,
    Bool.false_eq_true, if_false, if_true]
  rw [skipWs_indentNl, skipWs_cons_not (by decide : isWsChar '"' = false)]
  simp only [show (('"' : Char) == rbrace) = false from by decide,
    show (('"' : Char) == '"') = true from rfl,
    Bool.false_eq_true, if_false, if_true]
  rw [parseStrBody_esc]
  simp only []
  rw [skipWs_cons_not (by decide : isWsChar ':' = false)]
  simp only []
  rw [parseVal_cons_ws fuel (by decide : isWsChar ' ' = true),
    ih1 _ (numSafe_objTail kvs (d + 1) d (rbrace :: rest))]
  simp only []
  rw [ih3 rest]

theorem parseArrRest_print_nil (fuel d d2 : Nat) (rest : List Char) :
    parseArrRest (fuel + 1) (printArrItems [] d ++ (indentNl d2 ++ (']' :: rest)))
      = some ([], rest) := by
  simp only [printArrItems, List.nil_append]
  simp only [parseArrRest, skipWs_indentNl,
    skipWs_cons_not (by decide : isWsChar ']' = false)]
  simp

theorem parseArrRest_print_cons (fuel : Nat) (x : Json) (xs : List Json)
    (d d2 : Nat) (rest : List Char)
    (ih1 : ∀ r2, numSafe r2 = true →
      parseVal fuel (printJson x d ++ r2) = some (x, r2))
    (ih2 : ∀ r2, parseArrRest fuel
      (printArrItems xs d ++ (indentNl d2 ++ (']' :: r2))) = some (xs, r2)) :
    parseArrRest (fuel + 1)
      (printArrItems (x :: xs) d ++ (indentNl d2 ++ (']' :: rest)))
      = some (x :: xs, rest) := by
  have hP : printArrItems (x :: xs) d ++ (indentNl d2 ++ (']' :: rest))
      = ',' :: (indentNl d ++ (printJson x d
          ++ (printArrItems xs d ++ (indentNl d2 ++ (']' :: rest))))) := by
    simp [printArrItems, List.append_assoc]
  rw [hP]
  simp only [parseArrRest, skipWs_cons_not (by decide : isWsChar ',' = false)]
  simp only [show ((',' : Char) == ']') = false from rfl,
    show ((',' : Char) == ',') = true from rfl, Bool.false_eq_true, if_false, if_true]
  rw [parseVal_indent, ih1 _ (numSafe_arrTail xs d d2 (']' :: rest))]
  simp only []
  rw [ih2 rest]

theorem parseObjRest_print_nil (fuel d d2 : Nat) (rest : List Char) :
    parseObjRest (fuel + 1) (printObjItems [] d ++ (indentNl d2 ++ (rbrace :: rest)))
      = some ([], rest) := by
  simp only [printObjItems, List.nil_append]
  simp only [parseObjRest, skipWs_indentNl,
    skipWs_cons_not (by decide : isWsChar rbrace = false)]
  simp [show ((rbrace == rbrace) = true) from by decide]

theorem parseObjRest_print_cons (fuel : Nat) (k : List Char) (v : Json)
    (kvs : List (List Char × Json)) (d d2 : Nat) (rest : List Char)
    (ih1 : ∀ r2, numSafe r2 = true →
      parseVal fuel (printJson v d ++ r2) = some (v, r2))
    (ih3 : ∀ r2, parseObjRest fuel
      (printObjItems kvs d ++ (indentNl d2 ++ (rbrace :: r2))) = some (kvs, r2)) :
    parseObjRest (fuel + 1)
      (printObjItems ((k, v) :: kvs) d ++ (indentNl d2 ++ (rbrace :: rest)))
      = some ((k, v) :: kvs, rest) := by
  have hP : printObjItems ((k, v) :: kvs) d ++ (indentNl d2 ++ (rbrace :: rest))
      = ',' :: (indentNl d ++ ('"' :: (escBody k ++ ('"' :: (':' :: (' '
          :: (printJson v d ++ (printObjItems kvs d
            ++ (indentNl d2 ++ (rbrace :: rest)))))))))) := by
    simp [printObjItems, printStr, List.append_assoc]
  rw [hP]
  simp only [parseObjRest, skipWs_cons_not (by decide : isWsChar ',' = false)]
  simp only [show ((',' : Char) == rbrace) = false from by decide,
    show ((',' : Char) == ',') = true from rfl, Bool.false_eq_true, if_false, if_true]
  rw [skipWs_indentNl, skipWs_cons_not (by decide : isWsChar '"' = false)]
  simp only [show (('"' : Char) == '"') = true from rfl, if_true]
  rw [parseStrBody_esc]
  simp only []
  rw [skipWs_cons_not (by decide : isWsChar ':' = false)]
  simp only []
  rw [parseVal_cons_ws fuel (by decide : isWsChar ' ' = true),
    ih1 _ (numSafe_objTail kvs d d2 (rbrace :: rest))]
  simp only []
  rw [ih3 rest]

theorem parse_print_main (fuel : Nat) :
    (∀ v d rest, fuelJson v ≤ fuel → numSafe rest = true →
      parseVal fuel (printJson v d ++ rest) = some (v, rest))
    ∧ (∀ xs d d2 rest, fuelItems xs ≤ fuel →
      parseArrRest fuel (printArrItems xs d ++ (indentNl d2 ++ (']' :: rest)))
        = some (xs, rest))
    ∧ (∀ kvs d d2 rest, fuelKVs kvs ≤ fuel →
      parseObjRest fuel (printObjItems kvs d ++ (indentNl d2 ++ (rbrace :: rest)))
        = some (kvs, rest)) := by
  induction fuel with
  | zero =>
    refine ⟨fun v d rest h _ => absurd h (by have := fuelJson_pos v; omega),
      fun xs d d2 rest h => absurd h (by have := fuelItems_pos xs; omega),
      fun kvs d d2 rest h => absurd h (by have := fuelKVs_pos kvs; omega)⟩
  | succ fuel ih =>
    obtain ⟨ih1, ih2, ih3⟩ := ih
    refine ⟨?_, ?_, ?_⟩
    · intro v d rest hfu hsafe
      cases v with
      | null => exact parseVal_print_null fuel d rest
      | bool b => exact parseVal_print_bool fuel b d rest
      | num i => exact parseVal_print_num fuel i d rest hsafe
      | str s => exact parseVal_print_str fuel s d rest
      | arr xs =>
        cases xs with
        | nil => exact parseVal_print_arrNil fuel d rest
        | cons x xs =>
          have hb : fuelJson x ≤ fuel ∧ fuelItems xs ≤ fuel := by
            simp only [fuelJson] at hfu
            omega
          exact parseVal_print_arrCons fuel x xs d rest
            (fun r2 hs => ih1 x (d + 1) r2 hb.1 hs)
            (fun r2 => ih2 xs (d + 1) d r2 hb.2)
      | obj kvs =>
        cases kvs with
        | nil => exact parseVal_print_objNil fuel d rest
        | cons kv kvs =>
          obtain ⟨k, v⟩ := kv
          have hb : fuelJson v ≤ fuel ∧ fuelKVs kvs ≤ fuel := by
            simp only [fuelJson] at hfu
            omega
          exact parseVal_print_objCons fuel k v kvs d rest
            (fun r2 hs => ih1 v (d + 1) r2 hb.1 hs)
            (fun r2 => ih3 kvs (d + 1) d r2 hb.2)
    · intro xs d d2 rest hfu
      cases xs with
      | nil => exact parseArrRest_print_nil fuel d d2 rest
      | cons x xs =>
        have hb : fuelJson x ≤ fuel ∧ fuelItems xs ≤ fuel := by
          simp only [fuelItems] at hfu
          omega
        exact parseArrRest_print_cons fuel x xs d d2 rest
          (fun r2 hs => ih1 x d r2 hb.1 hs)
          (fun r2 => ih2 xs d d2 r2 hb.2)
    · intro kvs d d2 rest hfu
      cases kvs with
      | nil => exact parseObjRest_print_nil fuel d d2 rest
      | cons kv kvs =>
        obtain ⟨k, v⟩ := kv
        have hb : fuelJson v ≤ fuel ∧ fuelKVs kvs ≤ fuel := by
          simp only [fuelKVs] at hfu
          omega
        exact parseObjRest_print_cons fuel k v kvs d d2 rest
          (fun r2 hs => ih1 v d r2 hb.1 hs)
          (fun r2 => ih3 kvs d d2 r2 hb.2)

theorem fuel_le_len_all (n : Nat) :
    (∀ v : Json, ∀ d, fuelJson v ≤ n →
      fuelJson v ≤ (printJson v d).length + 1)
    ∧ (∀ xs : List Json, ∀ d, fuelItems xs ≤ n →
      fuelItems xs ≤ (printArrItems xs d).length + 1)
    ∧ (∀ kvs : List (List Char × Json), ∀ d, fuelKVs kvs ≤ n →
      fuelKVs kvs ≤ (printObjItems kvs d).length + 1) := by
  induction n with
  | zero =>
    refine ⟨fun v d h => absurd h (by have := fuelJson_pos v; omega),
      fun xs d h => absurd h (by have := fuelItems_pos xs; omega),
      fun kvs d h => absurd h (by have := fuelKVs_pos kvs; omega)⟩
  | succ n ih =>
    obtain ⟨ih1, ih2, ih3⟩ := ih
    refine ⟨?_, ?_, ?_⟩
    · intro v d hfu
      cases v with
      | null => simp [fuelJson]
      | bool b => cases b <;> simp [fuelJson] <;> omega
      | num i => simp [fuelJson]
      | str s => simp [fuelJson]
      | arr xs =>
        cases xs with
        | nil => simp [fuelJson]
        | cons x xs =>
          simp only [fuelJson] at hfu ⊢
          have h1 := ih1 x (d + 1) (by omega)
          have h2 := ih2 xs (d + 1) (by omega)
          simp only [printJson, List.length_cons, List.length_append, indentNl,
            List.length_replicate]
          omega
      | obj kvs =>
        cases kvs with
        | nil => simp [fuelJson]
        | cons kv kvs =>
          simp only [fuelJson] at hfu ⊢
          have h1 := ih1 kv.2 (d + 1) (by omega)
          have h2 := ih3 kvs (d + 1) (by omega)
          simp only [printJson, List.length_cons, List.length_append, indentNl,
            List.length_replicate]
          omega
    · intro xs d hfu
      cases xs with
      | nil => simp [fuelItems]
      | cons x xs =>
        simp only [fuelItems] at hfu ⊢
        have h1 := ih1 x d (by omega)
        have h2 := ih2 xs d (by omega)
        simp only [printArrItems, List.length_cons, List.length_append, indentNl,
          List.length_replicate]
        omega
    · intro kvs d hfu
      cases kvs with
      | nil => simp [fuelKVs]
      | cons kv kvs =>
        simp only [fuelKVs] at hfu ⊢
        have h1 := ih1 kv.2 d (by omega)
        have h2 := ih3 kvs d (by omega)
        simp only [printObjItems, List.length_cons, List.length_append, indentNl,
          List.length_replicate]
        omega

theorem loads_print (v : Json) : loads (printJson v 0 ++ ['\n']) = some v := by
  have hlen : fuelJson v ≤ (printJson v 0 ++ ['\n']).length + 1 := by
    have := (fuel_le_len_all (fuelJson v)).1 v 0 le_rfl
    simp only [List.length_append, List.length_singleton]
    omega
  have h := (parse_print_main ((printJson v 0 ++ ['\n']).length + 1)).1 v 0 ['\n']
    hlen (by decide)
  simp only [List.length_append, List.length_singleton] at h
  simp [loads, h, skipWs, isWsChar]

/-- C6: StateStore round-trip and CAS — (i) whenever
`write(path, r, token)` succeeds, reading the bytes it wrote returns a record
equal to `r` and exactly the token `write` returned (both re-derived from the
on-disk bytes; `write`'s own re-read also reports `r`); (ii) `write` with a
supplied expected token that differs from the current on-disk token fails
with Conflict — raised before the temp file is even written, so the file is
unchanged. -/
theorem statestore_roundtrip_and_cas :
    (∀ (file : Option (List Char)) (r : Json) (tok : Option String)
      (raw : List Char) (d : Json) (e p : String),
      writeJsonAtomic file r tok = .ok (raw, d, e, p) →
      readJsonWithEtag (some raw) = .ok (r, e) ∧ d = r)
    ∧ (∀ (file : Option (List Char)) (r : Json) (cur : Json × String) (t : String),
      readJsonWithEtag file = .ok cur → t ≠ "" → t ≠ cur.2 →
      writeJsonAtomic file r (some t) = .error .Conflict) := by
  constructor
  · intro file r tok raw d e p hw
    have hread : readJsonWithEtag (some (printJson r 0 ++ ['\n']))
        = .ok (r, sha256_hex (printJson r 0 ++ ['\n'])) := by
      simp [readJsonWithEtag, loads_print]
    rcases hcur : readJsonWithEtag file with e0 | de
    · simp [writeJsonAtomic, hcur] at hw
    · obtain ⟨d0, cur⟩ := de
      simp only [writeJsonAtomic, hcur] at hw
      by_cases hg : writeGuardConflict tok cur
      · simp [hg] at hw
      · rw [if_neg hg, hread] at hw
        simp only [Except.ok.injEq, Prod.mk.injEq] at hw
        obtain ⟨hraw, hd, he, _⟩ := hw
        subst hraw
        subst he
        exact ⟨hread, hd.symm⟩
  · intro file r cur t hr ht1 ht2
    have hg : writeGuardConflict (some t) cur.2 = true := by
      simp [writeGuardConflict, ht1, ht2]
    simp [writeJsonAtomic, hr, hg]

theorem statestore_roundtrip_and_cas_witness :
    (readJsonWithEtag
        (some (printJson (Json.obj [(['v', 'e', 'r', 's', 'i', 'o', 'n'], Json.num 1)]) 0
          ++ ['\n']))
      = .ok (Json.obj [(['v', 'e', 'r', 's', 'i', 'o', 'n'], Json.num 1)],
          sha256_hex (printJson (Json.obj [(['v', 'e', 'r', 's', 'i', 'o', 'n'],
            Json.num 1)]) 0 ++ ['\n'])))
    ∧ writeJsonAtomic none (Json.obj []) (some "stale") = .error .Conflict :=
  ⟨((statestore_roundtrip_and_cas).1 none
      (Json.obj [(['v', 'e', 'r', 's', 'i', 'o', 'n'], Json.num 1)]) none
      (printJson (Json.obj [(['v', 'e', 'r', 's', 'i', 'o', 'n'], Json.num 1)]) 0
        ++ ['\n'])
      (Json.obj [(['v', 'e', 'r', 's', 'i', 'o', 'n'], Json.num 1)])
      (sha256_hex (printJson (Json.obj [(['v', 'e', 'r', 's', 'i', 'o', 'n'],
        Json.num 1)]) 0 ++ ['\n']))
      (sha256_hex [])
      (by simp [writeJsonAtomic, readJsonWithEtag, writeGuardConflict, loads_print])).1,
   (statestore_roundtrip_and_cas).2 none (Json.obj [])
      (Json.obj [(['v', 'e', 'r', 's', 'i', 'o', 'n'], Json.num 1)], sha256_hex [])
      "stale" rfl (by decide) (by decide)⟩

end Collab
